import Mathlib

/-!
Shallow embedding of the plan/step execution engine in `src/planner.py`:
the data model (capabilities, steps, plans), the JSON extraction pipeline
used by `create_plan`, readiness recomputation (`_update_ready_status`),
single-step execution (`execute_step`) and the full-plan wave loop
(`execute_full_plan`), together with theorems settling the specification
claims about them.
-/

namespace ArkaydixCore

/-- Result of Python's `json.loads`: a parsed JSON value.  Numbers are kept
as their raw token text (the engine never does arithmetic on them); objects
keep their fields in textual order, with duplicate keys resolved last-wins
at lookup time, matching Python dict construction. -/
inductive JVal where
  | jnull
  | jbool (b : Bool)
  | jnum (raw : String)
  | jstr (s : String)
  | jarr (items : List JVal)
  | jobj (fields : List (String × JVal))

/-- Whitespace accepted between JSON tokens by Python's json decoder. -/
def isWsChar (c : Char) : Bool :=
  c = ' ' || c = '\t' || c = '\n' || c = '\r'

/-- Drop leading JSON whitespace. -/
def skipWs (cs : List Char) : List Char := cs.dropWhile isWsChar

/-- Value of a hexadecimal digit, for `\uXXXX` escapes. -/
def hexDigitVal (c : Char) : Option Nat :=
  if c.isDigit then some (c.toNat - 48)
  else if 'a' ≤ c && c ≤ 'f' then some (c.toNat - 87)
  else if 'A' ≤ c && c ≤ 'F' then some (c.toNat - 55)
  else none

/-- Single-character JSON string escapes. -/
def escapeChar (c : Char) : Option Char :=
  if c = '"' then some '"'
  else if c = '\\' then some '\\'
  else if c = '/' then some '/'
  else if c = 'b' then some (Char.ofNat 8)
  else if c = 'f' then some (Char.ofNat 12)
  else if c = 'n' then some '\n'
  else if c = 'r' then some '\r'
  else if c = 't' then some '\t'
  else none

/-- Parse the body of a JSON string after the opening quote, returning the
decoded characters and the remainder after the closing quote.  `fuel` is
always supplied as `length + 1`, which cannot run out since every step
consumes at least one character.  Raw control characters are rejected, as
in Python's strict mode.  A `\uXXXX` escape is
decoded as a single code point (surrogate pairing is not modelled; no input
relevant to the claims contains such escapes). -/
def parseStringBody : Nat → List Char → Option (List Char × List Char)
  | 0, _ => none
  | _ + 1, [] => none
  | fuel + 1, c :: rest =>
    if c = '"' then some ([], rest)
    else if c = '\\' then
      match rest with
      | [] => none
      | e :: rest2 =>
        if e = 'u' then
          match rest2 with
          | h1 :: h2 :: h3 :: h4 :: rest3 =>
            match hexDigitVal h1, hexDigitVal h2, hexDigitVal h3, hexDigitVal h4 with
            | some a, some b, some c2, some d =>
              (parseStringBody fuel rest3).map
                (fun p => (Char.ofNat (((a * 16 + b) * 16 + c2) * 16 + d) :: p.1, p.2))
            | _, _, _, _ => none
          | _ => none
        else
          match escapeChar e with
          | some ec => (parseStringBody fuel rest2).map (fun p => (ec :: p.1, p.2))
          | none => none
    else if c.toNat < 32 then none
    else (parseStringBody fuel rest).map (fun p => (c :: p.1, p.2))

/-- Longest prefix of decimal digits, and the remainder. -/
def takeDigits (cs : List Char) : List Char × List Char :=
  (cs.takeWhile Char.isDigit, cs.dropWhile Char.isDigit)

/-- Integer part of a JSON number: `0`, or a nonzero digit followed by
digits (so `01` is not consumed beyond the `0`). -/
def parseIntPart : List Char → Option (List Char × List Char)
  | [] => none
  | c :: rest =>
    if c = '0' then some ([c], rest)
    else if c.isDigit then
      let (ds, r) := takeDigits rest
      some (c :: ds, r)
    else none

/-- Optional fractional part `.digits`; consumed only when at least one
digit follows the dot, matching the JSON number grammar. -/
def parseFracPart (cs : List Char) : List Char × List Char :=
  match cs with
  | '.' :: rest =>
    let (ds, r) := takeDigits rest
    if ds.isEmpty then ([], cs) else ('.' :: ds, r)
  | _ => ([], cs)

/-- Optional exponent part `e[+-]?digits`; consumed only when complete. -/
def parseExpPart (cs : List Char) : List Char × List Char :=
  match cs with
  | e :: rest =>
    if e = 'e' || e = 'E' then
      match rest with
      | s :: rest2 =>
        if s = '+' || s = '-' then
          let (ds, r) := takeDigits rest2
          if ds.isEmpty then ([], cs) else (e :: s :: ds, r)
        else
          let (ds, r) := takeDigits rest
          if ds.isEmpty then ([], cs) else (e :: ds, r)
      | [] => ([], cs)
    else ([], cs)
  | [] => ([], cs)

/-- Parse a JSON number token (Python's json also accepts `-Infinity`,
handled here; bare `NaN` and `Infinity` are handled in `parseValue`). -/
def parseNumberToken (cs : List Char) : Option (List Char × List Char) :=
  match cs with
  | '-' :: rest =>
    if ("Infinity".data).isPrefixOf rest then some ("-Infinity".data, rest.drop 8)
    else
      match parseIntPart rest with
      | some (ip, r1) =>
        let (fp, r2) := parseFracPart r1
        let (ep, r3) := parseExpPart r2
        some ('-' :: (ip ++ fp ++ ep), r3)
      | none => none
  | _ =>
    match parseIntPart cs with
    | some (ip, r1) =>
      let (fp, r2) := parseFracPart r1
      let (ep, r3) := parseExpPart r2
      some (ip ++ fp ++ ep, r3)
    | none => none

mutual

/-- Parse one JSON value; the input must already have leading whitespace
removed.  `fuel` bounds nesting and member/item counts; callers supply
`length + 1`, which is always sufficient because every recursive call
consumes at least one character first. -/
def parseValue : Nat → List Char → Option (JVal × List Char)
  | 0, _ => none
  | _ + 1, [] => none
  | fuel + 1, c :: rest =>
    if c = '{' then parseMembers fuel (skipWs rest) [] true
    else if c = '[' then parseItems fuel (skipWs rest) [] true
    else if c = '"' then
      (parseStringBody (rest.length + 1) rest).map
        (fun p => (JVal.jstr (String.mk p.1), p.2))
    else if c = 't' then
      if ("rue".data).isPrefixOf rest then some (JVal.jbool true, rest.drop 3) else none
    else if c = 'f' then
      if ("alse".data).isPrefixOf rest then some (JVal.jbool false, rest.drop 4) else none
    else if c = 'n' then
      if ("ull".data).isPrefixOf rest then some (JVal.jnull, rest.drop 3) else none
    else if c = 'N' then
      if ("aN".data).isPrefixOf rest then some (JVal.jnum "NaN", rest.drop 2) else none
    else if c = 'I' then
      if ("nfinity".data).isPrefixOf rest then some (JVal.jnum "Infinity", rest.drop 7)
      else none
    else if c = '-' || c.isDigit then
      (parseNumberToken (c :: rest)).map (fun p => (JVal.jnum (String.mk p.1), p.2))
    else none

/-- Parse object members after `{` (whitespace already skipped).  `isFirst`
is true only before the first member, so `{}` is accepted but a trailing
comma is not. -/
def parseMembers : Nat → List Char → List (String × JVal) → Bool →
    Option (JVal × List Char)
  | 0, _, _, _ => none
  | _ + 1, [], _, _ => none
  | fuel + 1, c :: rest, acc, isFirst =>
    if c = '}' && isFirst then some (JVal.jobj acc.reverse, rest)
    else if c = '"' then
      match parseStringBody (rest.length + 1) rest with
      | none => none
      | some (key, r1) =>
        match skipWs r1 with
        | ':' :: r2 =>
          match parseValue fuel (skipWs r2) with
          | none => none
          | some (v, r3) =>
            match skipWs r3 with
            | ',' :: r4 => parseMembers fuel (skipWs r4) ((String.mk key, v) :: acc) false
            | '}' :: r4 => some (JVal.jobj ((String.mk key, v) :: acc).reverse, r4)
            | _ => none
        | _ => none
    else none

/-- Parse array items after `[` (whitespace already skipped). -/
def parseItems : Nat → List Char → List JVal → Bool → Option (JVal × List Char)
  | 0, _, _, _ => none
  | _ + 1, [], _, _ => none
  | fuel + 1, c :: rest, acc, isFirst =>
    if c = ']' && isFirst then some (JVal.jarr acc.reverse, rest)
    else
      match parseValue fuel (c :: rest) with
      | none => none
      | some (v, r1) =>
        match skipWs r1 with
        | ',' :: r2 => parseItems fuel (skipWs r2) (v :: acc) false
        | ']' :: r2 => some (JVal.jarr (v :: acc).reverse, r2)
        | _ => none

end

/-- Model of `json.loads text`: parse one value surrounded by optional
whitespace; any other trailing content makes the whole input invalid. -/
def jsonParseC (cs : List Char) : Option JVal :=
  let cs1 := skipWs cs
  match parseValue (cs1.length + 1) cs1 with
  | some (v, rest) => if (skipWs rest).isEmpty then some v else none
  | none => none

/-- Whether a string is accepted by `json.loads` (used for the `try / except`
probes in `_extract_json` and `create_plan`). -/
def jsonValid (s : String) : Bool := (jsonParseC s.data).isSome

/-- Python `text.split("\n")`: always returns at least one (possibly empty)
segment; a trailing newline yields a trailing empty segment. -/
def splitLines : List Char → List (List Char)
  | [] => [[]]
  | c :: rest =>
    if c = '\n' then [] :: splitLines rest
    else
      match splitLines rest with
      | [] => [[c]]
      | l :: ls => (c :: l) :: ls

/-- Python `"\n".join(lines)`. -/
def joinLines : List (List Char) → List Char
  | [] => []
  | [l] => l
  | l :: ls => l ++ '\n' :: joinLines ls

/-- Python `line.strip()` on a character list (whitespace off both ends). -/
def trimChars (cs : List Char) : List Char :=
  ((cs.dropWhile isWsChar).reverse.dropWhile isWsChar).reverse

/-- Python `needle in hay` on strings: substring containment. -/
def listContainsSub (needle : List Char) : List Char → Bool
  | [] => needle.isEmpty
  | c :: t => needle.isPrefixOf (c :: t) || listContainsSub needle t

/-- Strategy 2 of `_extract_json`, inner loop: walk the lines, toggling
`inCode` at every line whose stripped form starts with a fence marker,
collecting the lines seen while inside a fenced block (fence lines
themselves are dropped). -/
def collectFenced : List (List Char) → Bool → List (List Char)
  | [], _ => []
  | l :: ls, inCode =>
    if ("```".data).isPrefixOf (trimChars l) then collectFenced ls (!inCode)
    else if inCode then l :: collectFenced ls inCode
    else collectFenced ls inCode

/-- Strategy 2 of `_extract_json`: if the text mentions a fence marker,
rejoin the collected fenced lines and accept them when they parse. -/
def tryFences (cs : List Char) : Option (List Char) :=
  if listContainsSub ("```json".data) cs || listContainsSub ("```".data) cs then
    let jl := collectFenced (splitLines cs) false
    if jl.isEmpty then none
    else
      let pot := joinLines jl
      if (jsonParseC pot).isSome then some pot else none
  else none

/-- Strategy 3 of `_extract_json`, scanning loop.  `i` is the index of the
head of the unscanned remainder inside `full`; `count` is the running brace
depth (Python lets it go negative); `start` is the index saved at the most
recent top-level `{`.  On each `}` that closes depth back to zero the
candidate slice is probed with the JSON parser; a failed probe keeps
scanning with `start` retained, exactly as the Python loop does. -/
def braceScanGo (full : List Char) :
    List Char → Nat → Int → Option Nat → Option (List Char)
  | [], _, _, _ => none
  | c :: rest, i, count, start =>
    if c = '{' then
      let start' := if count = 0 then some i else start
      braceScanGo full rest (i + 1) (count + 1) start'
    else if c = '}' then
      let count' := count - 1
      if count' = 0 then
        match start with
        | some s0 =>
          let potential := (full.drop s0).take (i + 1 - s0)
          if (jsonParseC potential).isSome then some potential
          else braceScanGo full rest (i + 1) count' start
        | none => braceScanGo full rest (i + 1) count' start
      else braceScanGo full rest (i + 1) count' start
    else braceScanGo full rest (i + 1) count start

/-- Strategy 3 of `_extract_json`: find balanced top-level `{...}` spans and
return the first one that parses. -/
def braceScan (cs : List Char) : Option (List Char) :=
  braceScanGo cs cs 0 0 none

/-- Index of the last occurrence of a character, if any. -/
def findLastIdx (c : Char) (cs : List Char) : Option Nat :=
  match cs.reverse.findIdx? (· = c) with
  | some j => some (cs.length - 1 - j)
  | none => none

/-- Strategy 4 of `_extract_json`: the greedy regex `\{[\s\S]*\}` has at
most one match, spanning the first `{` to the last `}` (when the latter
comes after the former); the loop over `re.findall` therefore reduces to
probing that single candidate. -/
def tryRegex (cs : List Char) : Option (List Char) :=
  match cs.findIdx? (· = '{') with
  | none => none
  | some i =>
    match findLastIdx '}' cs with
    | none => none
    | some j =>
      if i < j then
        let cand := (cs.drop i).take (j + 1 - i)
        if (jsonParseC cand).isSome then some cand else none
      else none

/-- Model of `Planner._extract_json`: the four-strategy pipeline, first
success wins, empty string when every strategy fails. -/
def extractJson (text : String) : String :=
  if jsonValid text then text
  else
    match tryFences text.data with
    | some p => String.mk p
    | none =>
      match braceScan text.data with
      | some p => String.mk p
      | none =>
        match tryRegex text.data with
        | some p => String.mk p
        | none => ""

/-- Enumeration `StepStatus` from `planner.py`. -/
inductive StepStatus where
  | pending
  | ready
  | executing
  | completed
  | failed
  | needsTool
deriving DecidableEq

/-- Enumeration `Complexity` from `planner.py`. -/
inductive Complexity where
  | atomic
  | simple
  | moderate
  | complex
deriving DecidableEq

/-- Python `.value` of a `Complexity` member. -/
def Complexity.value : Complexity → String
  | .atomic => "atomic"
  | .simple => "simple"
  | .moderate => "moderate"
  | .complex => "complex"

/-- One entry of a step's `deferred_requirements` list.  In the source each
entry is a dict probed with `r.get("type")` and `r.get("name")`; only
string values ever compare equal to `"tool"` or hit the registry, so a
missing or non-string value is modelled as `none` (a non-string name is
never a registered key, exactly like `none` here). -/
structure Requirement where
  rtype : Option String
  rname : Option String
deriving DecidableEq

/-- Output payload of a step (`Any` in Python): a plain generated string, a
structured value passed through from a collaborator, or the
success/error dict built by `_execute_save_fact`. -/
inductive Value where
  | vstr (s : String)
  | vjson (j : JVal)
  | vsave (success : Bool) (errText : Option String)

/-- Dataclass `PlanStep`. -/
structure PlanStep where
  id : String
  description : String
  tool : Option String
  toolInput : List (String × JVal)
  expectedOutput : String
  status : StepStatus
  dependsOn : List String
  outputData : Option Value
  errText : Option String
  deferredRequirements : List Requirement

/-- Dataclass `Plan`.  `createdAt` stands in for the wall-clock timestamp. -/
structure Plan where
  id : String
  goal : String
  complexity : Complexity
  steps : List PlanStep
  createdAt : Nat
  context : List (String × Value)

/-- Dataclass `ToolCapability` (contract metadata advertised to the LLM). -/
structure ToolCapability where
  name : String
  description : String
  inputSchema : List (String × String)
  outputSchema : List (String × String)
  examples : List String

/-- State of a `Planner` instance: the capability registry `self.tools`
(a name-keyed insertion-ordered dict, here a list with unique names kept by
`registerTool`) and the in-memory plan table `self.plans`. -/
structure Planner where
  tools : List ToolCapability
  plans : List (String × Plan)

/-- Python `name in self.tools` (dict keys are the capability names). -/
def toolRegistered (tools : List ToolCapability) (n : String) : Bool :=
  tools.any (·.name == n)

/-- Dict assignment `self.tools[capability.name] = capability`: overwrite in
place or append. -/
def insertCap : List ToolCapability → ToolCapability → List ToolCapability
  | [], c => [c]
  | t :: ts, c => if t.name == c.name then c :: ts else t :: insertCap ts c

/-- Method `Planner.register_tool`. -/
def registerTool (p : Planner) (c : ToolCapability) : Planner :=
  { p with tools := insertCap p.tools c }

/-- Dict lookup `self.plans.get(plan_id)`. -/
def lookupPlan (ps : List (String × Plan)) (pid : String) : Option Plan :=
  (ps.find? (·.1 == pid)).map (·.2)

/-- In-place mutation of the plan object stored under `pid` (Python mutates
the shared object; here the table entry is replaced). -/
def setPlan : List (String × Plan) → String → Plan → List (String × Plan)
  | [], _, _ => []
  | (k, v) :: rest, pid, newp =>
    if k == pid then (k, newp) :: rest else (k, v) :: setPlan rest pid newp

/-- Dict assignment `self.plans[plan.id] = plan`. -/
def insertPlan : List (String × Plan) → String → Plan → List (String × Plan)
  | [], pid, p => [(pid, p)]
  | (k, v) :: rest, pid, p =>
    if k == pid then (k, p) :: rest else (k, v) :: insertPlan rest pid p

/-- Dict assignment `plan.context[key] = value`. -/
def insertCtx : List (String × Value) → String → Value → List (String × Value)
  | [], k, v => [(k, v)]
  | (k0, v0) :: rest, k, v =>
    if k0 == k then (k0, v) :: rest else (k0, v0) :: insertCtx rest k v

/-- Set comprehension `{s.id for s in plan.steps if s.status == COMPLETED}`
(only membership is ever used, so a list suffices). -/
def completedIds (steps : List PlanStep) : List String :=
  (steps.filter (fun s => s.status == StepStatus.completed)).map (·.id)

/-- Python `r.get("type") == "tool" and r.get("name") not in self.tools`:
the requirement is unmet (a missing name is `not in` the registry, so it
counts as unmet). -/
def unmetReq (tools : List ToolCapability) (r : Requirement) : Bool :=
  r.rtype == some "tool" &&
    !(match r.rname with
      | some n => toolRegistered tools n
      | none => false)

/-- Loop body of `Planner._update_ready_status` for one step: non-PENDING
steps are skipped outright; a PENDING step with an unmet deferred tool
requirement becomes NEEDS_TOOL; otherwise it becomes READY exactly when
every dependency id is in the completed set. -/
def updateStep (tools : List ToolCapability) (completed : List String)
    (s : PlanStep) : PlanStep :=
  if s.status != StepStatus.pending then s
  else if !s.deferredRequirements.isEmpty
      && s.deferredRequirements.any (unmetReq tools) then
    { s with status := StepStatus.needsTool }
  else if s.dependsOn.all (fun d => completed.contains d) then
    { s with status := StepStatus.ready }
  else s

/-- Method `Planner._update_ready_status`: one readiness pass over the
plan, with the completed set taken from the snapshot before the pass. -/
def updateReadyStatus (tools : List ToolCapability) (plan : Plan) : Plan :=
  { plan with steps := plan.steps.map (updateStep tools (completedIds plan.steps)) }

/-- Method `Planner.get_next_steps`: run a readiness pass (mutating the
stored plan) and return the READY steps. -/
def getNextSteps (p : Planner) (pid : String) : List PlanStep × Planner :=
  match lookupPlan p.plans pid with
  | none => ([], p)
  | some plan =>
    let plan' := updateReadyStatus p.tools plan
    let p' := { p with plans := setPlan p.plans pid plan' }
    ((plan'.steps.filter (·.status == StepStatus.ready)), p')

/-- External world seen by the step handlers: the generation backend used
by `_execute_llm` and the memory collaborator used by the three memory
handlers.  An `Except.error` models the callee raising, with the
exception's text. -/
structure Oracle where
  llm : Plan → PlanStep → Except String String
  searchTopics : Plan → PlanStep → Except String Value
  getFacts : Plan → PlanStep → Except String Value
  saveFact : Plan → PlanStep → Except String Unit

/-- Method `Planner._execute_save_fact`: the memory call is wrapped in its
own `try`, so this handler never raises; it reports failure in its payload. -/
def executeSaveFact (ora : Oracle) (plan : Plan) (step : PlanStep) : Value :=
  match ora.saveFact plan step with
  | .ok _ => Value.vsave true none
  | .error e => Value.vsave false (some e)

/-- Dispatch chain of `Planner.execute_step`: `None` or `llm_generate` goes
to the generation handler, the three memory capabilities to their handlers,
and any other name to the non-fatal placeholder string. -/
def dispatchStep (ora : Oracle) (plan : Plan) (step : PlanStep) :
    Except String Value :=
  match step.tool with
  | none => (ora.llm plan step).map Value.vstr
  | some t =>
    if t == "llm_generate" then (ora.llm plan step).map Value.vstr
    else if t == "memory_search_topics" then ora.searchTopics plan step
    else if t == "memory_get_facts" then ora.getFacts plan step
    else if t == "memory_save_fact" then Except.ok (executeSaveFact ora plan step)
    else Except.ok (Value.vstr ("Tool '" ++ t ++ "' not implemented yet"))

/-- Mutation of the step object found by
`next((s for s in plan.steps if s.id == step_id), None)`: apply `f` to the
first step with the given id. -/
def setFirstStep : List PlanStep → String → (PlanStep → PlanStep) → List PlanStep
  | [], _, _ => []
  | s :: ss, sid, f =>
    if s.id == sid then f s :: ss else s :: setFirstStep ss sid f

/-- Plan-level body of `Planner.execute_step`, after the plan lookup: find
the step, require READY, dispatch, then either record the output (also in
the plan context) and rerun readiness, or record FAILED with the exception
text.  The transient EXECUTING assignment is invisible in this single-step
semantics (the call always leaves it again before returning).  `dispatch`
is the handler outcome for the found step. -/
def execStepPlan (tools : List ToolCapability)
    (dispatch : PlanStep → Except String Value) (plan : Plan) (sid : String) :
    Option Value × Plan :=
  match plan.steps.find? (·.id == sid) with
  | none => (none, plan)
  | some step =>
    if step.status != StepStatus.ready then (none, plan)
    else
      match dispatch step with
      | .ok result =>
        let steps' := setFirstStep plan.steps sid
          (fun s => { s with status := StepStatus.completed, outputData := some result })
        let ctx1 := insertCtx plan.context ("output_" ++ sid) result
        let plan1 := { plan with steps := steps', context := ctx1 }
        (some result, updateReadyStatus tools plan1)
      | .error e =>
        let steps' := setFirstStep plan.steps sid
          (fun s => { s with status := StepStatus.failed, errText := some e })
        (none, { plan with steps := steps' })

/-- Method `Planner.execute_step`. -/
def executeStep (ora : Oracle) (p : Planner) (pid sid : String) :
    Option Value × Planner :=
  match lookupPlan p.plans pid with
  | none => (none, p)
  | some plan =>
    let res := execStepPlan p.tools (dispatchStep ora plan) plan sid
    (res.1, { p with plans := setPlan p.plans pid res.2 })

/-- Inner `for` loop of `Planner.execute_full_plan`: execute each step of
the wave in order, appending a `{"step": description, "result": result}`
record for every one of them (a failed step contributes `none` and does not
interrupt the loop). -/
def runWave (ora : Oracle) (p : Planner) (pid : String) :
    List PlanStep → List (String × Option Value) → List (String × Option Value) × Planner
  | [], acc => (acc, p)
  | s :: rest, acc =>
    let res := executeStep ora p pid s.id
    runWave ora res.2 pid rest (acc ++ [(s.description, res.1)])

/-- Outer `while next_steps := self.get_next_steps(plan_id)` loop of
`execute_full_plan`, with explicit fuel.  The Python loop has no fuel; the
termination theorem shows the fuel chosen in `executeFullPlan` is never
exhausted, so the model and the (terminating) loop agree. -/
def fullPlanLoop (ora : Oracle) :
    Nat → Planner → String → List (String × Option Value) →
    Option (List (String × Option Value) × Planner)
  | 0, _, _, _ => none
  | fuel + 1, p, pid, acc =>
    let gns := getNextSteps p pid
    if gns.1.isEmpty then some (acc, gns.2)
    else
      let res := runWave ora gns.2 pid gns.1 acc
      fullPlanLoop ora fuel res.2 pid res.1

/-- Result of `execute_full_plan`: the not-found error dict, or the result
dict carrying the per-step results and the final plan (rendered with
`to_readable` in Python; the plan itself here).  `fuelExhausted` is a model
artifact proved unreachable for plans with distinct step ids. -/
inductive FullOutcome where
  | planNotFound
  | finished (results : List (String × Option Value)) (finalPlan : Option Plan)
  | fuelExhausted

/-- Whether a `FullOutcome` is the model-only fuel-exhaustion marker. -/
def FullOutcome.isFuelExhausted : FullOutcome → Bool
  | FullOutcome.fuelExhausted => true
  | _ => false

/-- The per-step results list of a finished outcome. -/
def FullOutcome.resultsOf : FullOutcome → Option (List (String × Option Value))
  | FullOutcome.finished rs _ => some rs
  | _ => none

/-- The step statuses of the final plan of a finished outcome. -/
def FullOutcome.finalStatuses : FullOutcome → Option (List StepStatus)
  | FullOutcome.finished _ (some fp) => some (fp.steps.map (fun s => s.status))
  | _ => none

/-- Method `Planner.execute_full_plan`. -/
def executeFullPlan (ora : Oracle) (p : Planner) (pid : String) :
    FullOutcome × Planner :=
  match lookupPlan p.plans pid with
  | none => (FullOutcome.planNotFound, p)
  | some plan =>
    match fullPlanLoop ora (plan.steps.length + 1) p pid [] with
    | some res => (FullOutcome.finished res.1 (lookupPlan res.2.plans pid), res.2)
    | none => (FullOutcome.fuelExhausted, p)

/-- Failure modes of `create_plan`: the `ValueError` raised when extraction
yields nothing, a re-raised `json.JSONDecodeError`, the `ValueError`s for a
missing field or an invalid complexity, and the `TypeError`/`AttributeError`
faults Python's dynamic typing raises on structurally wrong step data
(modelled at the conversion point; in Python some of those surface slightly
later, but still inside `create_plan` and before any registration). -/
inductive CreatePlanError where
  | extractionError (raw : String)
  | decodeError (extracted : String)
  | schemaError (msg : String)
  | typeError (msg : String)

/-- Python `key in data` for a parsed JSON value: key membership for a
dict, element membership for a list, substring test for a string, and a
`TypeError` otherwise. -/
def pyContains (v : JVal) (k : String) : Except CreatePlanError Bool :=
  match v with
  | .jobj fs => Except.ok (fs.any (·.1 == k))
  | .jarr xs =>
    Except.ok (xs.any (fun x => match x with | .jstr s => s == k | _ => false))
  | .jstr s => Except.ok (listContainsSub k.data s.data)
  | _ => Except.error (CreatePlanError.typeError "argument is not iterable")

/-- Python `data[k]` (duplicate JSON keys resolve last-wins, as in the dict
`json.loads` builds). -/
def jIndex (v : JVal) (k : String) : Except CreatePlanError JVal :=
  match v with
  | .jobj fs =>
    match (fs.filter (·.1 == k)).getLast? with
    | some kv => Except.ok kv.2
    | none => Except.error (CreatePlanError.typeError "KeyError")
  | _ => Except.error (CreatePlanError.typeError "indices must be integers")

/-- Python `data.get(k, dflt)` on a dict (non-dicts never reach the `.get`
calls in `create_plan`, because `data["steps"]` fails first). -/
def jGetD (v : JVal) (k : String) (dflt : JVal) : JVal :=
  match v with
  | .jobj fs =>
    match (fs.filter (·.1 == k)).getLast? with
    | some kv => kv.2
    | none => dflt
  | _ => dflt

/-- String-valued step field with a default (non-string values are rejected
here; Python would carry them along as-is, but no claim exercises that). -/
def strField (v : JVal) (k : String) (dflt : String) : Except CreatePlanError String :=
  match jGetD v k (JVal.jstr dflt) with
  | .jstr s => Except.ok s
  | _ => Except.error (CreatePlanError.typeError "non-string field")

/-- Step field `tool`: JSON `null` or a missing key is Python `None`,
meaning generic LLM generation. -/
def toolField (v : JVal) : Except CreatePlanError (Option String) :=
  match jGetD v "tool" JVal.jnull with
  | .jnull => Except.ok none
  | .jstr s => Except.ok (some s)
  | _ => Except.error (CreatePlanError.typeError "non-string tool")

/-- Step field `tool_input` (a dict, default `{}`). -/
def toolInputField (v : JVal) : Except CreatePlanError (List (String × JVal)) :=
  match jGetD v "tool_input" (JVal.jobj []) with
  | .jobj fs => Except.ok fs
  | _ => Except.error (CreatePlanError.typeError "non-dict tool_input")

/-- Dependency ids must all be strings (Python keeps any value and simply
never finds a non-string id in the completed set). -/
def depStrings : List JVal → Except CreatePlanError (List String)
  | [] => Except.ok []
  | .jstr s :: rest => (depStrings rest).map (s :: ·)
  | _ :: _ => Except.error (CreatePlanError.typeError "non-string dependency id")

/-- Step field `depends_on` (default `[]`; a string is iterated
character-by-character, as Python iteration would). -/
def dependsOnField (v : JVal) : Except CreatePlanError (List String) :=
  match jGetD v "depends_on" (JVal.jarr []) with
  | .jarr xs => depStrings xs
  | .jstr s => Except.ok (s.data.map (fun c => String.mk [c]))
  | _ => Except.error (CreatePlanError.typeError "non-iterable depends_on")

/-- One `deferred_requirements` entry: keep the string values of "type" and
"name"; any other value behaves exactly like an absent key downstream (see
`Requirement`). -/
def reqOfJVal : JVal → Except CreatePlanError Requirement
  | .jobj fs =>
    let get := fun (k : String) =>
      match (fs.filter (·.1 == k)).getLast? with
      | some (_, JVal.jstr s) => some s
      | _ => none
    Except.ok ⟨get "type", get "name"⟩
  | _ => Except.error (CreatePlanError.typeError "requirement is not a dict")

/-- Step field `deferred_requirements` (default `[]`). -/
def deferredField (v : JVal) : Except CreatePlanError (List Requirement) :=
  match jGetD v "deferred_requirements" (JVal.jarr []) with
  | .jarr xs => xs.mapM reqOfJVal
  | _ => Except.error (CreatePlanError.typeError "non-list deferred_requirements")

/-- Normalization of one raw step dict in `create_plan`: defaults applied,
status PENDING, no output and no error yet.  `built` is the number of steps
already built, used for the synthesized id `step_{len(steps)+1}`. -/
def buildStep (built : Nat) (s : JVal) : Except CreatePlanError PlanStep :=
  match s with
  | .jobj _ => do
    let sid ← strField s "id" ("step_" ++ toString (built + 1))
    let desc ← strField s "description" ""
    let tool ← toolField s
    let tin ← toolInputField s
    let eo ← strField s "expected_output" ""
    let deps ← dependsOnField s
    let defr ← deferredField s
    Except.ok { id := sid, description := desc, tool := tool, toolInput := tin,
                expectedOutput := eo, status := StepStatus.pending,
                dependsOn := deps, outputData := none, errText := none,
                deferredRequirements := defr }
  | _ => Except.error (CreatePlanError.typeError "step is not a dict")

/-- The `for s in data["steps"]` loop of `create_plan`. -/
def buildSteps : List JVal → Nat → Except CreatePlanError (List PlanStep)
  | [], _ => Except.ok []
  | s :: rest, n => do
    let st ← buildStep n s
    let sts ← buildSteps rest (n + 1)
    Except.ok (st :: sts)

/-- Python `Complexity(value)`: only the four enumerator strings are
accepted; anything else raises `ValueError`. -/
def complexityOf : JVal → Except CreatePlanError Complexity
  | .jstr s =>
    if s == "atomic" then Except.ok Complexity.atomic
    else if s == "simple" then Except.ok Complexity.simple
    else if s == "moderate" then Except.ok Complexity.moderate
    else if s == "complex" then Except.ok Complexity.complex
    else Except.error (CreatePlanError.schemaError "is not a valid Complexity")
  | _ => Except.error (CreatePlanError.schemaError "is not a valid Complexity")

/-- Validation and construction phase of `create_plan`, straight after a
successful `json.loads`: field-presence check, step normalization,
complexity conversion, then the `Plan` value (steps still all PENDING). -/
def buildPlanOfData (data : JVal) (goal pid : String) (createdAt : Nat) :
    Except CreatePlanError Plan := do
  let hasC ← pyContains data "complexity"
  let hasS ← pyContains data "steps"
  if !hasC || !hasS then
    Except.error (CreatePlanError.schemaError "Missing required fields in plan")
  else
    let stepsJ ← jIndex data "steps"
    let steps ← match stepsJ with
      | JVal.jarr xs => buildSteps xs 0
      | _ => Except.error (CreatePlanError.typeError "steps is not a list of dicts")
    let cJ ← jIndex data "complexity"
    let cx ← complexityOf cJ
    let reasoning := jGetD data "reasoning" (JVal.jstr "")
    Except.ok { id := pid, goal := goal, complexity := cx, steps := steps,
                createdAt := createdAt,
                context := [("reasoning", Value.vjson reasoning)] }

/-- Row of the `plans` table written by `_save_plan_to_db`.  The Python row
stores `json.dumps` serializations of the steps and context; the row here
keeps the structured values those strings serialize. -/
structure DbRow where
  rowId : String
  rowGoal : String
  rowComplexity : String
  rowSteps : List PlanStep
  rowCreatedAt : Nat
  rowContext : List (String × Value)

/-- Method `Planner._save_plan_to_db`: append the plan's row. -/
def dbRowOfPlan (plan : Plan) : DbRow :=
  { rowId := plan.id, rowGoal := plan.goal, rowComplexity := plan.complexity.value,
    rowSteps := plan.steps, rowCreatedAt := plan.createdAt, rowContext := plan.context }

/-- Method `Planner.create_plan`.  `reply` is the raw backend message
content and `pid` the fresh plan id (`plan_` plus a uuid fragment in the
source).  Mutations happen in source order: nothing is written before every
failure point has passed; then the readiness pass runs, the plan is
registered in the table, and its row is persisted. -/
def createPlan (p : Planner) (db : List DbRow) (goal reply pid : String)
    (createdAt : Nat) : Except CreatePlanError Plan × Planner × List DbRow :=
  let llmOutput := String.mk (trimChars reply.data)
  let jsonStr := extractJson llmOutput
  if jsonStr == "" then (Except.error (CreatePlanError.extractionError llmOutput), p, db)
  else
    match jsonParseC jsonStr.data with
    | none => (Except.error (CreatePlanError.decodeError jsonStr), p, db)
    | some data =>
      match buildPlanOfData data goal pid createdAt with
      | .error e => (Except.error e, p, db)
      | .ok plan0 =>
        let plan := updateReadyStatus p.tools plan0
        let plans' := insertPlan p.plans plan.id plan
        let db' := db ++ [dbRowOfPlan plan]
        (Except.ok plan, { p with plans := plans' }, db')

/-- Builtin capability `llm_generate` from `_register_builtin_tools`. -/
def llmGenerateCap : ToolCapability :=
  { name := "llm_generate",
    description := "General text generation and reasoning. Use when no specialized tool needed.",
    inputSchema := [("prompt", "string"), ("context", "optional dict")],
    outputSchema := [("response", "string")],
    examples := ["Answer a question", "Summarize text", "Analyze and explain"] }

/-- Builtin capability `memory_search_topics`. -/
def memorySearchTopicsCap : ToolCapability :=
  { name := "memory_search_topics",
    description := "Search Selene's memory for topics by keyword or semantic similarity",
    inputSchema := [("query", "string"), ("limit", "int (default 5)")],
    outputSchema := [("topics", "list of {name, description, facts}")],
    examples := ["Find topics about music", "Search for coding discussions"] }

/-- Builtin capability `memory_get_facts`. -/
def memoryGetFactsCap : ToolCapability :=
  { name := "memory_get_facts",
    description := "Get all facts about a specific topic",
    inputSchema := [("topic_name", "string")],
    outputSchema := [("facts", "list of {type, content, locked}")],
    examples := ["Get facts about Jazz Guitar", "What do I know about Python"] }

/-- Builtin capability `memory_save_fact`. -/
def memorySaveFactCap : ToolCapability :=
  { name := "memory_save_fact",
    description := "Save a new fact to memory under a topic",
    inputSchema := [("topic_name", "string"), ("fact_type", "WHO|WHAT|WHEN|WHERE|WHY|HOW"),
                    ("fact", "string")],
    outputSchema := [("success", "boolean")],
    examples := ["Save that user likes coffee", "Remember user's birthday"] }

/-- State of a freshly constructed `Planner`: the four builtin capabilities
registered by `_register_builtin_tools`, no plans yet. -/
def initPlanner : Planner :=
  registerTool
    (registerTool
      (registerTool
        (registerTool { tools := [], plans := [] } llmGenerateCap)
        memorySearchTopicsCap)
      memoryGetFactsCap)
    memorySaveFactCap

/-- Dependency-safety property of a plan (spec §8, claim C3): no READY
step has a dependency id missing from the completed-id set. -/
def StepInv (plan : Plan) : Prop :=
  ∀ s ∈ plan.steps, s.status = StepStatus.ready →
    ∀ d ∈ s.dependsOn, d ∈ completedIds plan.steps

/-- Write-discipline property of a plan (claim C8): a step that is not
COMPLETED carries no output payload and one that is not FAILED carries no
error text, so the terminal write is the first and only one. -/
def PayloadInv (plan : Plan) : Prop :=
  ∀ s ∈ plan.steps,
    (s.status ≠ StepStatus.completed → s.outputData = none)
    ∧ (s.status ≠ StepStatus.failed → s.errText = none)

/-- Plans reachable through the engine: a freshly generated plan (steps all
PENDING with empty payloads, exactly as `create_plan` builds them) after
its initial readiness pass, then any interleaving of readiness passes
(under a registry that may grow between passes) and step executions with
arbitrary handler outcomes. -/
inductive ReachablePlan : Plan → Prop where
  | created (tools : List ToolCapability) (plan : Plan)
      (h : ∀ s ∈ plan.steps, s.status = StepStatus.pending ∧
        s.outputData = none ∧ s.errText = none) :
      ReachablePlan (updateReadyStatus tools plan)
  | recomputed (tools : List ToolCapability) (plan : Plan)
      (h : ReachablePlan plan) : ReachablePlan (updateReadyStatus tools plan)
  | executed (tools : List ToolCapability) (dispatch : PlanStep → Except String Value)
      (sid : String) (plan : Plan) (h : ReachablePlan plan) :
      ReachablePlan (execStepPlan tools dispatch plan sid).2

/-- Whether a step is in a terminal state (COMPLETED or FAILED). -/
def stepTerminal (s : PlanStep) : Bool :=
  s.status == StepStatus.completed || s.status == StepStatus.failed

/-- Number of non-terminal steps of a plan: the termination measure of the
wave loop. -/
def nonTermCount (plan : Plan) : Nat :=
  plan.steps.countP (fun s => !stepTerminal s)

/-- Termination measure of the wave loop as seen from the planner: the
non-terminal step count of the plan stored under `pid` (0 when absent). -/
def planMeasure (p : Planner) (pid : String) : Nat :=
  match lookupPlan p.plans pid with
  | none => 0
  | some plan => nonTermCount plan

/-- The plan stored under `pid` (when present) has pairwise-distinct step
ids — the data-model invariant of spec §3. -/
def planIdsNodup (p : Planner) (pid : String) : Prop :=
  match lookupPlan p.plans pid with
  | none => True
  | some plan => (plan.steps.map (fun s => s.id)).Nodup

/-! ### Concrete fixtures used by witness and counterexample theorems -/

/-- Oracle whose collaborators all succeed. -/
def oraOk : Oracle where
  llm := fun _ _ => Except.ok "generated"
  searchTopics := fun _ _ => Except.ok (Value.vstr "topics")
  getFacts := fun _ _ => Except.ok (Value.vstr "facts")
  saveFact := fun _ _ => Except.ok ()

/-- Oracle whose generation backend raises. -/
def oraLlmFail : Oracle := { oraOk with llm := fun _ _ => Except.error "boom" }

/-- Oracle whose memory save operation raises. -/
def oraSaveFail : Oracle := { oraOk with saveFact := fun _ _ => Except.error "db locked" }

/-- A step referencing the unregistered capability `image_gen`, with the
matching deferred requirement, already flagged NEEDS_TOOL. -/
def ntStep : PlanStep :=
  { id := "s1", description := "make an image", tool := some "image_gen",
    toolInput := [], expectedOutput := "an image", status := StepStatus.needsTool,
    dependsOn := [], outputData := none, errText := none,
    deferredRequirements := [⟨some "tool", some "image_gen"⟩] }

/-- The same step before any readiness pass (still PENDING). -/
def pendStepNT : PlanStep := { ntStep with status := StepStatus.pending }

/-- A plan holding the NEEDS_TOOL step. -/
def ntPlan : Plan :=
  { id := "plan_nt", goal := "make an image", complexity := Complexity.atomic,
    steps := [ntStep], createdAt := 0, context := [] }

/-- The same plan before any readiness pass. -/
def pendPlanNT : Plan := { ntPlan with steps := [pendStepNT] }

/-- A planner (builtin registry only) holding `ntPlan`. -/
def ntPlanner : Planner :=
  { tools := initPlanner.tools, plans := [("plan_nt", ntPlan)] }

/-- A READY step bound to `memory_save_fact`. -/
def saveStep : PlanStep :=
  { id := "sv", description := "save the coffee fact", tool := some "memory_save_fact",
    toolInput := [("topic_name", JVal.jstr "Coffee"), ("fact_type", JVal.jstr "WHAT"),
                  ("fact", JVal.jstr "user likes coffee")],
    expectedOutput := "", status := StepStatus.ready, dependsOn := [],
    outputData := none, errText := none, deferredRequirements := [] }

/-- A plan holding the save-fact step. -/
def savePlan : Plan :=
  { id := "plan_sv", goal := "save a fact", complexity := Complexity.atomic,
    steps := [saveStep], createdAt := 0, context := [] }

/-- A READY generic-generation step (tool `None`). -/
def llmStep : PlanStep :=
  { id := "g1", description := "summarize the findings", tool := none,
    toolInput := [], expectedOutput := "summary", status := StepStatus.ready,
    dependsOn := [], outputData := none, errText := none,
    deferredRequirements := [] }

/-- A plan holding the generic-generation step. -/
def llmPlan : Plan :=
  { id := "plan_g", goal := "summarize", complexity := Complexity.atomic,
    steps := [llmStep], createdAt := 0, context := [] }

/-- A step already COMPLETED, with its output written. -/
def doneStep : PlanStep :=
  { id := "d1", description := "already done", tool := none, toolInput := [],
    expectedOutput := "", status := StepStatus.completed, dependsOn := [],
    outputData := some (Value.vstr "earlier output"), errText := none,
    deferredRequirements := [] }

/-- A plan holding only the COMPLETED step. -/
def donePlan : Plan :=
  { id := "plan_d", goal := "done", complexity := Complexity.atomic,
    steps := [doneStep], createdAt := 0, context := [] }

/-- The `image_gen` capability, registered later in the C1 scenario. -/
def imageGenCap : ToolCapability :=
  { name := "image_gen", description := "Generate an image from a prompt",
    inputSchema := [("prompt", "string")], outputSchema := [("image", "bytes")],
    examples := ["Draw a cat"] }

/-- Step A of the dependency cycle: depends on B. -/
def cycleStepA : PlanStep :=
  { id := "A", description := "first of the cyclic pair", tool := none,
    toolInput := [], expectedOutput := "", status := StepStatus.pending,
    dependsOn := ["B"], outputData := none, errText := none,
    deferredRequirements := [] }

/-- Step B of the dependency cycle: depends on A. -/
def cycleStepB : PlanStep :=
  { id := "B", description := "second of the cyclic pair", tool := none,
    toolInput := [], expectedOutput := "", status := StepStatus.pending,
    dependsOn := ["A"], outputData := none, errText := none,
    deferredRequirements := [] }

/-- The two-step cyclic plan A ⇄ B. -/
def cyclePlan : Plan :=
  { id := "plan_cyc", goal := "impossible", complexity := Complexity.simple,
    steps := [cycleStepA, cycleStepB], createdAt := 0, context := [] }

/-- A planner holding the cyclic plan. -/
def cyclePlanner : Planner :=
  { tools := initPlanner.tools, plans := [("plan_cyc", cyclePlan)] }

/-- First of two steps sharing the id `x`: it shadows the second in the
step lookup but can never become READY (its dependency `x` never
completes). -/
def dupStepA : PlanStep :=
  { id := "x", description := "shadowing twin", tool := none, toolInput := [],
    expectedOutput := "", status := StepStatus.pending, dependsOn := ["x"],
    outputData := none, errText := none, deferredRequirements := [] }

/-- Second of the two steps sharing the id `x`: dependency-free, so it is
READY in every wave, yet `execute_step` always finds its twin first. -/
def dupStepB : PlanStep :=
  { id := "x", description := "shadowed twin", tool := none, toolInput := [],
    expectedOutput := "", status := StepStatus.pending, dependsOn := [],
    outputData := none, errText := none, deferredRequirements := [] }

/-- A plan with duplicate step ids, constructible through `create_plan`
from a backend reply that lists two steps with the same id. -/
def dupPlan : Plan :=
  { id := "plan_dup", goal := "loop forever", complexity := Complexity.simple,
    steps := [dupStepA, dupStepB], createdAt := 0, context := [] }

/-- A planner holding the duplicate-id plan. -/
def dupPlanner : Planner :=
  { tools := initPlanner.tools, plans := [("plan_dup", dupPlan)] }

/-- The duplicate-id planner after one readiness pass (the state the wave
loop revisits forever). -/
def dupPlannerFixed : Planner := (getNextSteps dupPlanner "plan_dup").2

/-- Markdown fence wrapping, as a generation backend would produce it. -/
def fenceWrap (body : String) : String := "```json\n" ++ body ++ "\n```"

/-- The braceless prose reply from the spec's extraction-failure scenario. -/
def proseReply : String := "Sure! Here's your plan for you."

/-! ### Basic lemmas about the readiness pass and the plan table -/

theorem updateStep_id (tools : List ToolCapability) (completed : List String)
    (s : PlanStep) : (updateStep tools completed s).id = s.id := by
  unfold updateStep
  repeat' split
  all_goals rfl

theorem updateStep_of_not_pending (tools : List ToolCapability)
    (completed : List String) (s : PlanStep) (h : s.status ≠ StepStatus.pending) :
    updateStep tools completed s = s := by
  have hb : (s.status != StepStatus.pending) = true := by simp [h]
  simp [updateStep, hb]

theorem updateStep_status_cases (tools : List ToolCapability)
    (completed : List String) (s : PlanStep) :
    (updateStep tools completed s).status = s.status ∨
      (s.status = StepStatus.pending ∧
        ((updateStep tools completed s).status = StepStatus.needsTool ∨
         (updateStep tools completed s).status = StepStatus.ready)) := by
  unfold updateStep
  split
  · exact Or.inl rfl
  · next h =>
    have hp : s.status = StepStatus.pending := by
      simpa using h
    split
    · exact Or.inr ⟨hp, Or.inl rfl⟩
    · split
      · exact Or.inr ⟨hp, Or.inr rfl⟩
      · exact Or.inl rfl

theorem lookupPlan_setPlan_self (ps : List (String × Plan)) (pid : String)
    (pl : Plan) (h : lookupPlan ps pid = some pl) : setPlan ps pid pl = ps := by
  induction ps with
  | nil => rfl
  | cons kv rest ih =>
    obtain ⟨k, v⟩ := kv
    by_cases hk : k == pid
    · have hv : v = pl := by
        simpa [lookupPlan, List.find?, hk] using h
      simp [setPlan, hk, hv]
    · have h' : lookupPlan rest pid = some pl := by
        simpa [lookupPlan, List.find?, hk] using h
      simp [setPlan, hk, ih h']

theorem lookupPlan_setPlan_found (ps : List (String × Plan)) (pid : String)
    (pl v : Plan) (h : lookupPlan ps pid = some pl) :
    lookupPlan (setPlan ps pid v) pid = some v := by
  induction ps with
  | nil => simp [lookupPlan] at h
  | cons kv rest ih =>
    by_cases hk : kv.1 == pid
    · simp [setPlan, lookupPlan, List.find?, hk]
    · have h' : lookupPlan rest pid = some pl := by
        simpa [lookupPlan, List.find?, hk] using h
      simp [setPlan, lookupPlan, List.find?, hk]
      simpa [lookupPlan] using ih h'

/-! ### C2: unresolved deferred capability forces NEEDS_TOOL; NEEDS_TOOL is outside every wave -/

theorem updateStep_needsTool (tools : List ToolCapability) (completed : List String)
    (s : PlanStep) (r : Requirement) (hp : s.status = StepStatus.pending)
    (hr : r ∈ s.deferredRequirements) (hu : unmetReq tools r = true) :
    (updateStep tools completed s).status = StepStatus.needsTool := by
  have hb : (s.status != StepStatus.pending) = false := by simp [hp]
  have hne : s.deferredRequirements.isEmpty = false := by
    cases hdr : s.deferredRequirements with
    | nil => rw [hdr] at hr; cases hr
    | cons a l => rfl
  have hany : s.deferredRequirements.any (unmetReq tools) = true :=
    List.any_eq_true.mpr ⟨r, hr, hu⟩
  simp [updateStep, hb, hne, hany]

/-- Claim C2: a PENDING step whose non-null tool reference is unregistered
and listed among its deferred requirements is flagged NEEDS_TOOL by the
readiness pass (`_update_ready_status`); every wave returned by
`get_next_steps` contains only READY steps; a NEEDS_TOOL step passes
through the readiness pass unchanged; and `execute_step` refuses to run a
NEEDS_TOOL step, leaving the planner state untouched. -/
theorem claimC2 :
    (∀ (tools : List ToolCapability) (plan : Plan) (j : Nat) (s : PlanStep) (t : String),
      plan.steps.get? j = some s → s.status = StepStatus.pending →
      s.tool = some t → toolRegistered tools t = false →
      (⟨some "tool", some t⟩ : Requirement) ∈ s.deferredRequirements →
      ((updateReadyStatus tools plan).steps.get? j).map (fun s' => s'.status) =
        some StepStatus.needsTool)
  ∧ (∀ (p : Planner) (pid : String) (s : PlanStep),
      s ∈ (getNextSteps p pid).1 → s.status = StepStatus.ready)
  ∧ (∀ (tools : List ToolCapability) (completed : List String) (s : PlanStep),
      s.status = StepStatus.needsTool → updateStep tools completed s = s)
  ∧ (∀ (ora : Oracle) (p : Planner) (pid sid : String) (plan : Plan) (st : PlanStep),
      lookupPlan p.plans pid = some plan →
      plan.steps.find? (fun s => s.id == sid) = some st →
      st.status = StepStatus.needsTool →
      executeStep ora p pid sid = (none, p)) := by
  refine ⟨?_, ?_, ?_, ?_⟩
  · intro tools plan j s t hj hp htool hreg hmem
    have hu : unmetReq tools (⟨some "tool", some t⟩ : Requirement) = true := by
      simp [unmetReq, hreg]
    have hst := updateStep_needsTool tools (completedIds plan.steps) s _ hp hmem hu
    simp only [updateReadyStatus, List.get?_map, hj, Option.map_some', hst]
  · intro p pid s hs
    unfold getNextSteps at hs
    cases hlk : lookupPlan p.plans pid with
    | none => rw [hlk] at hs; cases hs
    | some plan =>
      rw [hlk] at hs
      simp only [List.mem_filter] at hs
      exact beq_iff_eq.mp hs.2
  · intro tools completed s h
    exact updateStep_of_not_pending tools completed s (by rw [h]; intro hc; cases hc)
  · intro ora p pid sid plan st hlk hfind hst
    have hnr : (st.status != StepStatus.ready) = true := by simp [hst]
    unfold executeStep
    rw [hlk]
    simp only [execStepPlan, hfind, hnr, if_true]
    rw [lookupPlan_setPlan_self p.plans pid plan hlk]

/-- Witness for C2 at the `image_gen` scenario from the spec. -/
theorem claimC2Witness :
    ((updateReadyStatus initPlanner.tools pendPlanNT).steps.get? 0).map
        (fun s' => s'.status) = some StepStatus.needsTool
    ∧ executeStep oraOk ntPlanner "plan_nt" "s1" = (none, ntPlanner) := by
  constructor
  · exact claimC2.1 initPlanner.tools pendPlanNT 0 pendStepNT "image_gen"
      rfl rfl rfl rfl (by simp [pendStepNT, ntStep])
  · exact claimC2.2.2.2 oraOk ntPlanner "plan_nt" "s1" ntPlan ntStep rfl rfl rfl

/-! ### C10: execute_step on unknown plan, unknown step or non-READY step is a no-op -/

/-- Claim C10: `execute_step` returns `None` and leaves the planner state
(all step statuses, outputs, errors and every plan context) untouched when
the plan id is unknown, when no step has the requested id, or when the
found step is not READY. -/
theorem claimC10 :
    (∀ (ora : Oracle) (p : Planner) (pid sid : String),
      lookupPlan p.plans pid = none → executeStep ora p pid sid = (none, p))
  ∧ (∀ (ora : Oracle) (p : Planner) (pid sid : String) (plan : Plan),
      lookupPlan p.plans pid = some plan →
      plan.steps.find? (fun s => s.id == sid) = none →
      executeStep ora p pid sid = (none, p))
  ∧ (∀ (ora : Oracle) (p : Planner) (pid sid : String) (plan : Plan) (st : PlanStep),
      lookupPlan p.plans pid = some plan →
      plan.steps.find? (fun s => s.id == sid) = some st →
      st.status ≠ StepStatus.ready →
      executeStep ora p pid sid = (none, p)) := by
  refine ⟨?_, ?_, ?_⟩
  · intro ora p pid sid hlk
    unfold executeStep
    rw [hlk]
  · intro ora p pid sid plan hlk hfind
    unfold executeStep
    rw [hlk]
    simp only [execStepPlan, hfind]
    rw [lookupPlan_setPlan_self p.plans pid plan hlk]
  · intro ora p pid sid plan st hlk hfind hst
    have hnr : (st.status != StepStatus.ready) = true := by simp [hst]
    unfold executeStep
    rw [hlk]
    simp only [execStepPlan, hfind, hnr, if_true]
    rw [lookupPlan_setPlan_self p.plans pid plan hlk]

/-- Witness for C10: unknown plan id, unknown step id, and a NEEDS_TOOL
(non-READY) step are all rejected without touching the state. -/
theorem claimC10Witness :
    executeStep oraOk ntPlanner "no_such_plan" "s1" = (none, ntPlanner)
    ∧ executeStep oraOk ntPlanner "plan_nt" "no_such_step" = (none, ntPlanner)
    ∧ executeStep oraOk ntPlanner "plan_nt" "s1" = (none, ntPlanner) := by
  refine ⟨?_, ?_, ?_⟩
  · exact claimC10.1 oraOk ntPlanner "no_such_plan" "s1" rfl
  · exact claimC10.2.1 oraOk ntPlanner "plan_nt" "no_such_step" ntPlan rfl rfl
  · exact claimC10.2.2 oraOk ntPlanner "plan_nt" "s1" ntPlan ntStep rfl rfl
      (by intro h; cases h)

/-! ### Positionwise behavior of the single-step mutation -/

theorem setFirstStep_spec (ss : List PlanStep) (sid : String) (st : PlanStep)
    (hfind : ss.find? (fun s => s.id == sid) = some st) :
    ∃ j, ss.get? j = some st ∧
      (∀ f, (setFirstStep ss sid f).get? j = some (f st)) ∧
      (∀ f i, i ≠ j → (setFirstStep ss sid f).get? i = ss.get? i) := by
  induction ss with
  | nil => simp [List.find?] at hfind
  | cons a rest ih =>
    by_cases ha : (a.id == sid) = true
    · have hst : st = a := by
        have := List.find?_cons_of_pos (p := fun s => s.id == sid) rest ha
        rw [this] at hfind
        exact (Option.some_injective _ hfind).symm
      refine ⟨0, by simp [hst], ?_, ?_⟩
      · intro f
        simp [setFirstStep, ha, hst]
      · intro f i hi
        cases i with
        | zero => exact absurd rfl hi
        | succ i' => simp [setFirstStep, ha]
    · have hf' : rest.find? (fun s => s.id == sid) = some st := by
        have := List.find?_cons_of_neg (p := fun s => s.id == sid) rest
          (by simpa using ha)
        rw [this] at hfind
        exact hfind
      obtain ⟨j, h1, h2, h3⟩ := ih hf'
      refine ⟨j + 1, by simpa using h1, ?_, ?_⟩
      · intro f
        simpa [setFirstStep, ha] using h2 f
      · intro f i hi
        cases i with
        | zero => simp [setFirstStep, ha]
        | succ i' =>
          simp only [setFirstStep, ha, if_neg (by simpa using ha), List.get?_cons_succ]
          exact h3 f i' (by omega)

/-! ### C9: the save-fact handler never fails the step -/

/-- Claim C9: a READY step bound to `memory_save_fact` executes through
`_execute_save_fact`, which catches every memory-collaborator exception, so
the dispatch never errors, the step lands on COMPLETED with the
success/error payload as its output, and a raising save operation yields
the `success := false` payload with the exception text instead of FAILED. -/
theorem claimC9 (ora : Oracle) (tools : List ToolCapability) (plan : Plan)
    (sid : String) (st : PlanStep)
    (hfind : plan.steps.find? (fun s => s.id == sid) = some st)
    (hready : st.status = StepStatus.ready)
    (htool : st.tool = some "memory_save_fact") :
    (execStepPlan tools (dispatchStep ora plan) plan sid).1 =
      some (executeSaveFact ora plan st)
    ∧ (∃ j, plan.steps.get? j = some st ∧
        ((execStepPlan tools (dispatchStep ora plan) plan sid).2).steps.get? j =
          some { st with status := StepStatus.completed, outputData := some (executeSaveFact ora plan st) })
    ∧ (∀ m, ora.saveFact plan st = Except.error m →
        executeSaveFact ora plan st = Value.vsave false (some m)) := by
  have hdisp : dispatchStep ora plan st = Except.ok (executeSaveFact ora plan st) := by
    simp [dispatchStep, htool]
  have hnr : (st.status != StepStatus.ready) = false := by simp [hready]
  obtain ⟨j, hj, hset, _⟩ := setFirstStep_spec plan.steps sid st hfind
  refine ⟨?_, ⟨j, hj, ?_⟩, ?_⟩
  · simp [execStepPlan, hfind, hnr, hdisp]
  · simp only [execStepPlan, hfind, hnr, Bool.false_eq_true, if_false, hdisp,
      updateReadyStatus, List.get?_map, hset, Option.map_some']
    rw [updateStep_of_not_pending]
    intro hc
    cases hc
  · intro m hm
    simp [executeSaveFact, hm]

/-- Witness for C9: with a raising memory service the step still completes,
carrying the failure payload. -/
theorem claimC9Witness :
    (execStepPlan initPlanner.tools (dispatchStep oraSaveFail savePlan) savePlan "sv").1 =
      some (Value.vsave false (some "db locked")) := by
  have h := claimC9 oraSaveFail initPlanner.tools savePlan "sv" saveStep rfl rfl rfl
  rw [h.1, h.2.2 "db locked" rfl]

/-! ### C6: a handler exception fails only its own step -/

/-- Claim C6: when the dispatched handler raises, `execute_step` itself
does not propagate the exception: it returns `None`, the failing step's
status becomes FAILED with the exception text stored in its error field,
every other step position and the plan context are untouched, and the wave
loop of `execute_full_plan` still dispatches one execution per wave member
regardless of failures. -/
theorem claimC6 :
    (∀ (tools : List ToolCapability) (dispatch : PlanStep → Except String Value)
       (plan : Plan) (sid : String) (st : PlanStep) (e : String),
      plan.steps.find? (fun s => s.id == sid) = some st →
      st.status = StepStatus.ready → dispatch st = Except.error e →
      (execStepPlan tools dispatch plan sid).1 = none
      ∧ (execStepPlan tools dispatch plan sid).2.context = plan.context
      ∧ ∃ j, plan.steps.get? j = some st
          ∧ (execStepPlan tools dispatch plan sid).2.steps.get? j =
              some { st with status := StepStatus.failed, errText := some e }
          ∧ ∀ i, i ≠ j →
              (execStepPlan tools dispatch plan sid).2.steps.get? i = plan.steps.get? i)
  ∧ (∀ (ora : Oracle) (p : Planner) (pid : String) (wave : List PlanStep)
       (acc : List (String × Option Value)),
      ((runWave ora p pid wave acc).1).length = acc.length + wave.length) := by
  constructor
  · intro tools dispatch plan sid st e hfind hready hdisp
    have hnr : (st.status != StepStatus.ready) = false := by simp [hready]
    obtain ⟨j, hj, hset, hother⟩ := setFirstStep_spec plan.steps sid st hfind
    refine ⟨?_, ?_, ⟨j, hj, ?_, ?_⟩⟩
    · simp [execStepPlan, hfind, hnr, hdisp]
    · simp [execStepPlan, hfind, hnr, hdisp]
    · simp only [execStepPlan, hfind, hnr, Bool.false_eq_true, if_false, hdisp]
      exact hset _
    · intro i hi
      simp only [execStepPlan, hfind, hnr, Bool.false_eq_true, if_false, hdisp]
      exact hother _ i hi
  · intro ora p pid wave
    induction wave generalizing p with
    | nil => intro acc; simp [runWave]
    | cons s rest ih =>
      intro acc
      simp only [runWave]
      rw [ih]
      simp
      omega

/-- Witness for C6: a raising generation backend fails only the dispatched
step; a one-step wave still records exactly one result. -/
theorem claimC6Witness :
    (execStepPlan initPlanner.tools (dispatchStep oraLlmFail llmPlan) llmPlan "g1").1 = none
    ∧ (execStepPlan initPlanner.tools (dispatchStep oraLlmFail llmPlan) llmPlan "g1").2.context
        = llmPlan.context
    ∧ ((runWave oraOk ntPlanner "plan_nt" [ntStep] []).1).length =
        ([] : List (String × Option Value)).length + [ntStep].length := by
  have h := claimC6.1 initPlanner.tools (dispatchStep oraLlmFail llmPlan) llmPlan
    "g1" llmStep "boom" rfl rfl rfl
  exact ⟨h.1, h.2.1, claimC6.2 oraOk ntPlanner "plan_nt" [ntStep] []⟩


/-! ### Pointwise facts about the readiness pass and the completed-id set -/

theorem updateStep_dependsOn (tools : List ToolCapability) (completed : List String)
    (s : PlanStep) : (updateStep tools completed s).dependsOn = s.dependsOn := by
  unfold updateStep
  repeat' split
  all_goals rfl

theorem updateStep_outputData (tools : List ToolCapability) (completed : List String)
    (s : PlanStep) : (updateStep tools completed s).outputData = s.outputData := by
  unfold updateStep
  repeat' split
  all_goals rfl

theorem updateStep_errText (tools : List ToolCapability) (completed : List String)
    (s : PlanStep) : (updateStep tools completed s).errText = s.errText := by
  unfold updateStep
  repeat' split
  all_goals rfl

theorem updateStep_completed_beq (tools : List ToolCapability) (completed : List String)
    (s : PlanStep) :
    ((updateStep tools completed s).status == StepStatus.completed) =
      (s.status == StepStatus.completed) := by
  rcases updateStep_status_cases tools completed s with h | ⟨hp, h | h⟩
  · rw [h]
  · rw [h, hp]
    rfl
  · rw [h, hp]
    rfl

theorem updateStep_ready_src (tools : List ToolCapability) (completed : List String)
    (s : PlanStep) (h : (updateStep tools completed s).status = StepStatus.ready) :
    s.status = StepStatus.ready ∨
      s.dependsOn.all (fun d => completed.contains d) = true := by
  unfold updateStep at h
  split at h
  · exact Or.inl h
  · split at h
    · exact absurd h (by simp)
    · split at h
      · next hall => exact Or.inr hall
      · next hp _ _ =>
        refine absurd h ?_
        have : s.status = StepStatus.pending := by simpa using hp
        rw [this]
        simp

theorem completedIds_cons (x : PlanStep) (l : List PlanStep) :
    completedIds (x :: l) =
      (if x.status == StepStatus.completed then [x.id] else []) ++ completedIds l := by
  cases h : (x.status == StepStatus.completed)
  · simp [completedIds, List.filter_cons, h]
  · simp [completedIds, List.filter_cons, h]

theorem completedIds_map_updateStep (tools : List ToolCapability)
    (completed : List String) (steps : List PlanStep) :
    completedIds (steps.map (updateStep tools completed)) = completedIds steps := by
  induction steps with
  | nil => rfl
  | cons s ss ih =>
    rw [List.map_cons, completedIds_cons, completedIds_cons, ih,
      updateStep_completed_beq, updateStep_id]

/-! ### Membership and completed-id facts for the single-step mutation -/

theorem setFirstStep_cons_pos (a : PlanStep) (rest : List PlanStep) (sid : String)
    (f : PlanStep → PlanStep) (ha : (a.id == sid) = true) :
    setFirstStep (a :: rest) sid f = f a :: rest := by
  simp [setFirstStep, ha]

theorem setFirstStep_cons_neg (a : PlanStep) (rest : List PlanStep) (sid : String)
    (f : PlanStep → PlanStep) (ha : (a.id == sid) = false) :
    setFirstStep (a :: rest) sid f = a :: setFirstStep rest sid f := by
  simp [setFirstStep, ha]

theorem mem_setFirstStep_found (ss : List PlanStep) (sid : String) (st : PlanStep)
    (f : PlanStep → PlanStep) (s' : PlanStep)
    (hfind : ss.find? (fun s => s.id == sid) = some st)
    (h : s' ∈ setFirstStep ss sid f) : s' = f st ∨ s' ∈ ss := by
  induction ss with
  | nil => cases h
  | cons a rest ih =>
    cases ha : (a.id == sid) with
    | true =>
      have hst : st = a := by
        have := List.find?_cons_of_pos (p := fun s => s.id == sid) rest ha
        rw [this] at hfind
        exact (Option.some_injective _ hfind).symm
      rw [setFirstStep_cons_pos a rest sid f ha] at h
      rcases List.mem_cons.mp h with h | h
      · exact Or.inl (by rw [hst]; exact h)
      · exact Or.inr (List.mem_cons_of_mem a h)
    | false =>
      have hf' : rest.find? (fun s => s.id == sid) = some st := by
        have := List.find?_cons_of_neg (p := fun s => s.id == sid) (a := a) rest
          (by simp [ha])
        rw [this] at hfind
        exact hfind
      rw [setFirstStep_cons_neg a rest sid f ha] at h
      rcases List.mem_cons.mp h with h | h
      · exact Or.inr (by rw [h]; exact List.mem_cons_self a rest)
      · rcases ih hf' h with h' | h'
        · exact Or.inl h'
        · exact Or.inr (List.mem_cons_of_mem a h')

theorem completedIds_setFirstStep_congr (ss : List PlanStep) (sid : String)
    (st : PlanStep) (f : PlanStep → PlanStep)
    (hfind : ss.find? (fun s => s.id == sid) = some st)
    (h1 : ((f st).status == StepStatus.completed) = (st.status == StepStatus.completed))
    (h2 : (f st).id = st.id) :
    completedIds (setFirstStep ss sid f) = completedIds ss := by
  induction ss with
  | nil => rfl
  | cons a rest ih =>
    cases ha : (a.id == sid) with
    | true =>
      have hst : st = a := by
        have := List.find?_cons_of_pos (p := fun s => s.id == sid) rest ha
        rw [this] at hfind
        exact (Option.some_injective _ hfind).symm
      have h1' : ((f a).status == StepStatus.completed) = (a.status == StepStatus.completed) := by
        rw [← hst]; exact h1
      have h2' : (f a).id = a.id := by
        rw [← hst]; exact h2
      rw [setFirstStep_cons_pos a rest sid f ha, completedIds_cons, completedIds_cons,
        h1', h2']
    | false =>
      have hf' : rest.find? (fun s => s.id == sid) = some st := by
        have := List.find?_cons_of_neg (p := fun s => s.id == sid) (a := a) rest
          (by simp [ha])
        rw [this] at hfind
        exact hfind
      rw [setFirstStep_cons_neg a rest sid f ha, completedIds_cons, completedIds_cons,
        ih hf']

theorem completedIds_setFirstStep_mono (ss : List PlanStep) (sid : String)
    (st : PlanStep) (f : PlanStep → PlanStep)
    (hfind : ss.find? (fun s => s.id == sid) = some st)
    (hready : st.status = StepStatus.ready) :
    ∀ d ∈ completedIds ss, d ∈ completedIds (setFirstStep ss sid f) := by
  induction ss with
  | nil => intro d hd; cases hd
  | cons a rest ih =>
    intro d hd
    cases ha : (a.id == sid) with
    | true =>
      have hst : st = a := by
        have := List.find?_cons_of_pos (p := fun s => s.id == sid) rest ha
        rw [this] at hfind
        exact (Option.some_injective _ hfind).symm
      have hnc : (a.status == StepStatus.completed) = false := by
        rw [← hst, hready]; rfl
      rw [completedIds_cons, hnc] at hd
      simp only [Bool.false_eq_true, if_false, List.nil_append] at hd
      rw [setFirstStep_cons_pos a rest sid f ha, completedIds_cons]
      exact List.mem_append_right _ hd
    | false =>
      have hf' : rest.find? (fun s => s.id == sid) = some st := by
        have := List.find?_cons_of_neg (p := fun s => s.id == sid) (a := a) rest
          (by simp [ha])
        rw [this] at hfind
        exact hfind
      rw [completedIds_cons] at hd
      rw [setFirstStep_cons_neg a rest sid f ha, completedIds_cons]
      rcases List.mem_append.mp hd with h | h
      · exact List.mem_append_left _ h
      · exact List.mem_append_right _ (ih hf' d h)

/-! ### Preservation of the invariants -/

theorem stepInv_updateReady (tools : List ToolCapability) (plan : Plan)
    (h : StepInv plan) : StepInv (updateReadyStatus tools plan) := by
  intro s' hs' hready d hd
  simp only [updateReadyStatus] at hs'
  obtain ⟨s0, hs0, hmap⟩ := List.mem_map.mp hs'
  subst hmap
  rw [updateStep_dependsOn] at hd
  show d ∈ completedIds (plan.steps.map (updateStep tools (completedIds plan.steps)))
  rw [completedIds_map_updateStep]
  rcases updateStep_ready_src _ _ _ hready with hr | hall
  · exact h s0 hs0 hr d hd
  · have hc := List.all_eq_true.mp hall d hd
    simpa using hc

theorem payloadInv_updateReady (tools : List ToolCapability) (plan : Plan)
    (h : PayloadInv plan) : PayloadInv (updateReadyStatus tools plan) := by
  intro s' hs'
  simp only [updateReadyStatus] at hs'
  obtain ⟨s0, hs0, hmap⟩ := List.mem_map.mp hs'
  subst hmap
  constructor
  · intro hnc
    rw [updateStep_outputData]
    refine (h s0 hs0).1 ?_
    intro hc
    refine hnc ?_
    rw [updateStep_of_not_pending tools _ s0 (by rw [hc]; intro hk; cases hk), hc]
  · intro hnf
    rw [updateStep_errText]
    refine (h s0 hs0).2 ?_
    intro hcf
    refine hnf ?_
    rw [updateStep_of_not_pending tools _ s0 (by rw [hcf]; intro hk; cases hk), hcf]

theorem stepInv_execStep (tools : List ToolCapability)
    (dispatch : PlanStep → Except String Value) (plan : Plan) (sid : String)
    (h : StepInv plan) : StepInv (execStepPlan tools dispatch plan sid).2 := by
  cases hfind : plan.steps.find? (fun s => s.id == sid) with
  | none =>
    simp only [execStepPlan, hfind]
    exact h
  | some st =>
    cases hnr : (st.status != StepStatus.ready) with
    | true =>
      simp only [execStepPlan, hfind, hnr, if_true]
      exact h
    | false =>
      have hready : st.status = StepStatus.ready := by
        simpa using hnr
      cases hdisp : dispatch st with
      | error e =>
        simp only [execStepPlan, hfind, hnr, Bool.false_eq_true, if_false, hdisp]
        intro s' hs' hready' d hd
        rcases mem_setFirstStep_found plan.steps sid st _ s' hfind hs' with he | hmem
        · rw [he] at hready'
          cases hready'
        · have hds := h s' hmem hready' d hd
          show d ∈ completedIds (setFirstStep plan.steps sid _)
          rw [completedIds_setFirstStep_congr plan.steps sid st _ hfind
            (by rw [hready]; rfl) rfl]
          exact hds
      | ok v =>
        simp only [execStepPlan, hfind, hnr, Bool.false_eq_true, if_false, hdisp]
        refine stepInv_updateReady tools _ ?_
        intro s' hs' hready' d hd
        rcases mem_setFirstStep_found plan.steps sid st _ s' hfind hs' with he | hmem
        · rw [he] at hready'
          cases hready'
        · have hds := h s' hmem hready' d hd
          exact completedIds_setFirstStep_mono plan.steps sid st _ hfind hready d hds

theorem payloadInv_execStep (tools : List ToolCapability)
    (dispatch : PlanStep → Except String Value) (plan : Plan) (sid : String)
    (h : PayloadInv plan) : PayloadInv (execStepPlan tools dispatch plan sid).2 := by
  cases hfind : plan.steps.find? (fun s => s.id == sid) with
  | none =>
    simp only [execStepPlan, hfind]
    exact h
  | some st =>
    have hstmem : st ∈ plan.steps := List.mem_of_find?_eq_some hfind
    cases hnr : (st.status != StepStatus.ready) with
    | true =>
      simp only [execStepPlan, hfind, hnr, if_true]
      exact h
    | false =>
      have hready : st.status = StepStatus.ready := by
        simpa using hnr
      cases hdisp : dispatch st with
      | error e =>
        simp only [execStepPlan, hfind, hnr, Bool.false_eq_true, if_false, hdisp]
        intro s' hs'
        rcases mem_setFirstStep_found plan.steps sid st _ s' hfind hs' with he | hmem
        · constructor
          · intro _
            rw [he]
            show st.outputData = none
            exact (h st hstmem).1 (by rw [hready]; intro hk; cases hk)
          · intro hnf
            rw [he] at hnf
            exact absurd rfl hnf
        · exact h s' hmem
      | ok v =>
        simp only [execStepPlan, hfind, hnr, Bool.false_eq_true, if_false, hdisp]
        refine payloadInv_updateReady tools _ ?_
        intro s' hs'
        rcases mem_setFirstStep_found plan.steps sid st _ s' hfind hs' with he | hmem
        · constructor
          · intro hnc
            rw [he] at hnc
            exact absurd rfl hnc
          · intro _
            rw [he]
            show st.errText = none
            exact (h st hstmem).2 (by rw [hready]; intro hk; cases hk)
        · exact h s' hmem

theorem stepInv_of_all_pending (plan : Plan)
    (h : ∀ s ∈ plan.steps, s.status = StepStatus.pending ∧
      s.outputData = none ∧ s.errText = none) : StepInv plan := by
  intro s hs hr
  rw [(h s hs).1] at hr
  cases hr

theorem payloadInv_of_all_pending (plan : Plan)
    (h : ∀ s ∈ plan.steps, s.status = StepStatus.pending ∧
      s.outputData = none ∧ s.errText = none) : PayloadInv plan :=
  fun s hs => ⟨fun _ => (h s hs).2.1, fun _ => (h s hs).2.2⟩

/-! ### Freshly created plans are reachable -/

theorem buildStep_fields (n : Nat) (j : JVal) (st : PlanStep)
    (h : buildStep n j = Except.ok st) :
    st.status = StepStatus.pending ∧ st.outputData = none ∧ st.errText = none := by
  unfold buildStep at h
  cases j with
  | jobj fs =>
    simp only [bind, Except.bind] at h
    repeat' split at h
    all_goals cases h
    all_goals exact ⟨rfl, rfl, rfl⟩
  | jnull => cases h
  | jbool b => cases h
  | jnum r => cases h
  | jstr s => cases h
  | jarr xs => cases h

theorem buildSteps_fields (xs : List JVal) (n : Nat) (steps : List PlanStep)
    (h : buildSteps xs n = Except.ok steps) :
    ∀ s ∈ steps, s.status = StepStatus.pending ∧
      s.outputData = none ∧ s.errText = none := by
  induction xs generalizing n steps with
  | nil =>
    unfold buildSteps at h
    cases h
    intro s hs
    cases hs
  | cons x rest ih =>
    unfold buildSteps at h
    simp only [bind, Except.bind] at h
    cases hb : buildStep n x with
    | error e =>
      rw [hb] at h
      cases h
    | ok st =>
      rw [hb] at h
      cases hs2 : buildSteps rest (n + 1) with
      | error e =>
        rw [hs2] at h
        cases h
      | ok sts =>
        rw [hs2] at h
        cases h
        intro s hs
        rcases List.mem_cons.mp hs with he | hmem
        · rw [he]
          exact buildStep_fields n x st hb
        · exact ih (n + 1) sts hs2 s hmem

theorem buildPlanOfData_fields (data : JVal) (goal pid : String) (t : Nat)
    (plan0 : Plan) (h : buildPlanOfData data goal pid t = Except.ok plan0) :
    ∀ s ∈ plan0.steps, s.status = StepStatus.pending ∧
      s.outputData = none ∧ s.errText = none := by
  unfold buildPlanOfData at h
  simp only [bind, Except.bind] at h
  repeat' split at h
  all_goals cases h
  rename_i a sts hsteps b c d e f g
  exact buildSteps_fields _ 0 sts hsteps

theorem createPlan_ok_reachable (p : Planner) (db : List DbRow)
    (goal reply pid : String) (t : Nat) (plan : Plan) (p' : Planner)
    (db' : List DbRow)
    (h : createPlan p db goal reply pid t = (Except.ok plan, p', db')) :
    ReachablePlan plan := by
  simp only [createPlan] at h
  split at h
  · cases h
  · split at h
    · cases h
    · split at h
      · cases h
      · rename_i x plan0 hbuild
        rw [Prod.ext_iff, Prod.ext_iff] at h
        obtain ⟨h1, h2, h3⟩ := h
        have hplan : plan = updateReadyStatus p.tools plan0 := by
          simpa using h1.symm
        rw [hplan]
        exact ReachablePlan.created p.tools plan0
          (buildPlanOfData_fields _ _ _ _ _ hbuild)

/-! ### C3: a READY step never has an incomplete dependency -/

/-- Claim C3: every plan produced by a successful `create_plan` is in the
reachable set, and on every reachable plan — any interleaving of readiness
recomputations and step executions — no step is READY while one of its
dependency ids is missing from the COMPLETED id set. -/
theorem claimC3 :
    (∀ (p : Planner) (db : List DbRow) (goal reply pid : String) (t : Nat)
       (plan : Plan) (p' : Planner) (db' : List DbRow),
      createPlan p db goal reply pid t = (Except.ok plan, p', db') →
      ReachablePlan plan)
  ∧ (∀ plan, ReachablePlan plan → StepInv plan) := by
  constructor
  · exact createPlan_ok_reachable
  · intro plan h
    induction h with
    | created tools plan0 hall =>
      exact stepInv_updateReady tools plan0 (stepInv_of_all_pending plan0 hall)
    | recomputed tools plan0 _ ih =>
      exact stepInv_updateReady tools plan0 ih
    | executed tools dispatch sid plan0 _ ih =>
      exact stepInv_execStep tools dispatch plan0 sid ih

/-- Witness for C3: the one-step deferred-requirement plan, freshly
created, satisfies the invariant after its initial readiness pass. -/
theorem claimC3Witness :
    StepInv (updateReadyStatus initPlanner.tools pendPlanNT) :=
  claimC3.2 (updateReadyStatus initPlanner.tools pendPlanNT)
    (ReachablePlan.created initPlanner.tools pendPlanNT
      (by intro s hs; rcases List.mem_singleton.mp hs with rfl; exact ⟨rfl, rfl, rfl⟩))

/-! ### C8: COMPLETED and FAILED are terminal, outputs and errors are written once -/

/-- Claim C8: the readiness pass leaves a COMPLETED or FAILED step exactly
as it is; `execute_step` leaves every COMPLETED or FAILED position of the
plan untouched (it only ever moves a READY step); and on every reachable
plan a step that is not COMPLETED has no output payload and one that is not
FAILED has no error text — so each field is written exactly once, at its
terminal transition, and never overwritten afterwards. -/
theorem claimC8 :
    (∀ (tools : List ToolCapability) (completed : List String) (s : PlanStep),
      s.status = StepStatus.completed ∨ s.status = StepStatus.failed →
      updateStep tools completed s = s)
  ∧ (∀ (tools : List ToolCapability) (dispatch : PlanStep → Except String Value)
       (plan : Plan) (sid : String) (i : Nat) (s : PlanStep),
      plan.steps.get? i = some s →
      s.status = StepStatus.completed ∨ s.status = StepStatus.failed →
      (execStepPlan tools dispatch plan sid).2.steps.get? i = some s)
  ∧ (∀ plan, ReachablePlan plan → PayloadInv plan) := by
  refine ⟨?_, ?_, ?_⟩
  · intro tools completed s hterm
    refine updateStep_of_not_pending tools completed s ?_
    rcases hterm with h | h <;> rw [h] <;> intro hk <;> cases hk
  · intro tools dispatch plan sid i s hi hterm
    cases hfind : plan.steps.find? (fun x => x.id == sid) with
    | none =>
      simp only [execStepPlan, hfind]
      exact hi
    | some st =>
      cases hnr : (st.status != StepStatus.ready) with
      | true =>
        simp only [execStepPlan, hfind, hnr, if_true]
        exact hi
      | false =>
        have hready : st.status = StepStatus.ready := by
          simpa using hnr
        obtain ⟨j, hj, _, hother⟩ := setFirstStep_spec plan.steps sid st hfind
        have hij : i ≠ j := by
          intro he
          rw [he, hj] at hi
          have hss : s = st := (Option.some_injective _ hi).symm
          rw [hss, hready] at hterm
          rcases hterm with h | h <;> cases h
        cases hdisp : dispatch st with
        | ok v =>
          simp only [execStepPlan, hfind, hnr, Bool.false_eq_true, if_false, hdisp,
            updateReadyStatus, List.get?_map]
          rw [hother _ i hij, hi, Option.map_some']
          rw [updateStep_of_not_pending]
          rcases hterm with h | h <;> rw [h] <;> intro hk <;> cases hk
        | error e =>
          simp only [execStepPlan, hfind, hnr, Bool.false_eq_true, if_false, hdisp]
          rw [hother _ i hij]
          exact hi
  · intro plan h
    induction h with
    | created tools plan0 hall =>
      exact payloadInv_updateReady tools plan0 (payloadInv_of_all_pending plan0 hall)
    | recomputed tools plan0 _ ih =>
      exact payloadInv_updateReady tools plan0 ih
    | executed tools dispatch sid plan0 _ ih =>
      exact payloadInv_execStep tools dispatch plan0 sid ih

/-- Witness for C8: a COMPLETED step survives a readiness pass and an
execution untouched, and the freshly created deferred plan satisfies the
write-discipline invariant. -/
theorem claimC8Witness :
    updateStep initPlanner.tools [] doneStep = doneStep
    ∧ (execStepPlan initPlanner.tools (dispatchStep oraOk donePlan) donePlan "d1").2.steps.get? 0
        = some doneStep
    ∧ PayloadInv (updateReadyStatus initPlanner.tools pendPlanNT) := by
  refine ⟨?_, ?_, ?_⟩
  · exact claimC8.1 initPlanner.tools [] doneStep (Or.inl rfl)
  · exact claimC8.2.1 initPlanner.tools (dispatchStep oraOk donePlan) donePlan "d1" 0
      doneStep rfl (Or.inl rfl)
  · exact claimC8.2.2 (updateReadyStatus initPlanner.tools pendPlanNT)
      (ReachablePlan.created initPlanner.tools pendPlanNT
        (by intro s hs; rcases List.mem_singleton.mp hs with rfl; exact ⟨rfl, rfl, rfl⟩))

/-! ### C1: registering the missing tool does NOT unblock a NEEDS_TOOL step -/

/-- Claim C1 fails on the code: `_update_ready_status` skips every step
whose status is not PENDING, so a step flagged NEEDS_TOOL is never looked
at again.  Concretely: the deferred `image_gen` step is flagged NEEDS_TOOL
by the first pass; after `register_tool` makes `image_gen` resolvable (and
with an empty dependency list, so the claim demands READY), the next
recomputation still leaves it NEEDS_TOOL.  The spec (and the `# Tool not
registered yet` comment in the source) intend the flag to be re-derived
each pass, so this is a bug in the code, not in the claim. -/
theorem claimC1 :
    toolRegistered (registerTool ntPlanner imageGenCap).tools "image_gen" = true
    ∧ pendStepNT.dependsOn = []
    ∧ (updateReadyStatus initPlanner.tools pendPlanNT).steps.map (fun s => s.status)
        = [StepStatus.needsTool]
    ∧ (updateReadyStatus (registerTool ntPlanner imageGenCap).tools
          (updateReadyStatus initPlanner.tools pendPlanNT)).steps.map (fun s => s.status)
        = [StepStatus.needsTool] := by
  refine ⟨rfl, rfl, rfl, rfl⟩

/-! ### C5: create_plan is atomic on failure -/

/-- Claim C5: whenever `create_plan` fails — extraction failure, a JSON
decode error, missing required fields, an invalid complexity value, or any
of the dynamic-typing faults on malformed step data — it returns the error
with the plan table and the persisted plans store exactly as they were
before the call. -/
theorem claimC5 (p : Planner) (db : List DbRow) (goal reply pid : String)
    (t : Nat) (e : CreatePlanError) (p' : Planner) (db' : List DbRow)
    (h : createPlan p db goal reply pid t = (Except.error e, p', db')) :
    p' = p ∧ db' = db := by
  simp only [createPlan] at h
  split at h
  · cases h
    exact ⟨rfl, rfl⟩
  · split at h
    · cases h
      exact ⟨rfl, rfl⟩
    · split at h
      · cases h
        exact ⟨rfl, rfl⟩
      · cases h

/-- Witness for C5 at the spec's scenario: the braceless prose reply fails
extraction and leaves the planner and the store untouched. -/
theorem claimC5Witness :
    createPlan initPlanner [] "summarize my topics" proseReply "plan_x" 0 =
      (Except.error (CreatePlanError.extractionError proseReply), initPlanner, [])
    ∧ initPlanner = initPlanner ∧ ([] : List DbRow) = [] := by
  refine ⟨rfl, ?_⟩
  exact claimC5 initPlanner [] "summarize my topics" proseReply "plan_x" 0
    (CreatePlanError.extractionError proseReply) initPlanner [] rfl

/-! ### Extraction lemmas for C7 -/

theorem stringMkData (s : String) : String.mk s.data = s := rfl

theorem skipWs_not_ws (c : Char) (l : List Char) (hc : isWsChar c = false) :
    skipWs (c :: l) = c :: l := by
  simp [skipWs, List.dropWhile, hc]

theorem parseValue_fence (fuel : Nat) (rest : List Char) :
    parseValue fuel (Char.ofNat 96 :: rest) = none := by
  cases fuel with
  | zero => rfl
  | succ n => rfl

theorem jsonParseC_fence_head (l : List Char) :
    jsonParseC (Char.ofNat 96 :: l) = none := by
  unfold jsonParseC
  rw [skipWs_not_ws _ _ (by decide)]
  simp only [parseValue_fence]

theorem fenceWrap_data (body : String) :
    (fenceWrap body).data =
      Char.ofNat 96 :: ("``json".data ++ '\n' :: (body.data ++ '\n' :: "```".data)) := by
  unfold fenceWrap
  rw [String.data_append, String.data_append]
  simp

theorem jsonValid_fenceWrap (body : String) : jsonValid (fenceWrap body) = false := by
  unfold jsonValid
  rw [fenceWrap_data, jsonParseC_fence_head]
  rfl

theorem listContainsSub_of_isPre (needle hay : List Char)
    (h : needle.isPrefixOf hay = true) : listContainsSub needle hay = true := by
  cases hay with
  | nil =>
    cases needle with
    | nil => rfl
    | cons a t => simp [List.isPrefixOf] at h
  | cons a t => simp [listContainsSub, h]

theorem isPrefixOfTrans (a : List Char) :
    ∀ b c, a.isPrefixOf b = true → b.isPrefixOf c = true → a.isPrefixOf c = true := by
  induction a with
  | nil =>
    intro b c _ _
    cases c <;> rfl
  | cons x xs ih =>
    intro b c hab hbc
    cases b with
    | nil => simp [List.isPrefixOf] at hab
    | cons y ys =>
      cases c with
      | nil => simp [List.isPrefixOf] at hbc
      | cons z zs =>
        simp only [List.isPrefixOf, Bool.and_eq_true, beq_iff_eq] at hab hbc ⊢
        exact ⟨hab.1.trans hbc.1, ih ys zs hab.2 hbc.2⟩

theorem listContainsSub_mono (n n' hay : List Char) (hp : n'.isPrefixOf n = true)
    (h : listContainsSub n hay = true) : listContainsSub n' hay = true := by
  induction hay with
  | nil =>
    cases n with
    | nil =>
      cases n' with
      | nil => rfl
      | cons a t => simp [List.isPrefixOf] at hp
    | cons a t => simp [listContainsSub] at h
  | cons c t ih =>
    simp only [listContainsSub, Bool.or_eq_true] at h ⊢
    rcases h with h | h
    · exact Or.inl (isPrefixOfTrans n' n (c :: t) hp h)
    · exact Or.inr (ih h)

theorem splitLines_ne_nil (cs : List Char) : splitLines cs ≠ [] := by
  cases cs with
  | nil => simp [splitLines]
  | cons c t =>
    by_cases hc : c = '\n'
    · simp [splitLines, hc]
    · simp only [splitLines, if_neg hc]
      cases splitLines t <;> simp

theorem splitLines_append_newline (xs ys : List Char) (h : '\n' ∉ xs) :
    splitLines (xs ++ '\n' :: ys) = xs :: splitLines ys := by
  induction xs with
  | nil => simp [splitLines]
  | cons c t ih =>
    have hc : ¬(c = '\n') := fun he => h (he ▸ List.mem_cons_self c t)
    have ih' := ih (fun hm => h (List.mem_cons_of_mem c hm))
    rw [List.cons_append]
    simp only [splitLines, if_neg hc, ih']

theorem splitLines_no_newline (xs : List Char) (h : '\n' ∉ xs) :
    splitLines xs = [xs] := by
  induction xs with
  | nil => rfl
  | cons c t ih =>
    have hc : ¬(c = '\n') := fun he => h (he ▸ List.mem_cons_self c t)
    have ih' := ih (fun hm => h (List.mem_cons_of_mem c hm))
    simp only [splitLines, if_neg hc, ih']

theorem splitLines_mem_no_newline (cs : List Char) :
    ∀ l ∈ splitLines cs, '\n' ∉ l := by
  induction cs with
  | nil =>
    intro l hl
    rcases List.mem_singleton.mp hl with rfl
    simp
  | cons c t ih =>
    intro l hl
    by_cases hc : c = '\n'
    · rw [hc] at hl
      simp only [splitLines, if_pos rfl] at hl
      rcases List.mem_cons.mp hl with rfl | hm
      · simp
      · exact ih l hm
    · simp only [splitLines, if_neg hc] at hl
      cases hsp : splitLines t with
      | nil => exact absurd hsp (splitLines_ne_nil t)
      | cons l0 ls =>
        rw [hsp] at hl
        rcases List.mem_cons.mp hl with rfl | hm
        · intro hmem
          rcases List.mem_cons.mp hmem with he | hm0
          · exact hc he.symm
          · exact ih l0 (hsp ▸ List.mem_cons_self l0 ls) hm0
        · exact ih l (hsp ▸ List.mem_cons_of_mem l0 hm)

theorem joinLines_splitLines (cs : List Char) : joinLines (splitLines cs) = cs := by
  induction cs with
  | nil => rfl
  | cons c t ih =>
    by_cases hc : c = '\n'
    · subst hc
      simp only [splitLines, if_pos rfl]
      cases hsp : splitLines t with
      | nil => exact absurd hsp (splitLines_ne_nil t)
      | cons l0 ls =>
        rw [hsp] at ih
        show joinLines ([] :: l0 :: ls) = '\n' :: t
        rw [show joinLines ([] :: l0 :: ls) = [] ++ '\n' :: joinLines (l0 :: ls) from rfl]
        rw [List.nil_append, ih]
    · simp only [splitLines, if_neg hc]
      cases hsp : splitLines t with
      | nil => exact absurd hsp (splitLines_ne_nil t)
      | cons l0 ls =>
        rw [hsp] at ih
        cases ls with
        | nil =>
          show joinLines [c :: l0] = c :: t
          rw [show joinLines [c :: l0] = c :: l0 from rfl]
          rw [show joinLines [l0] = l0 from rfl] at ih
          rw [ih]
        | cons l1 ls1 =>
          show joinLines ((c :: l0) :: l1 :: ls1) = c :: t
          rw [show joinLines ((c :: l0) :: l1 :: ls1)
            = (c :: l0) ++ '\n' :: joinLines (l1 :: ls1) from rfl]
          rw [show joinLines (l0 :: l1 :: ls1)
            = l0 ++ '\n' :: joinLines (l1 :: ls1) from rfl] at ih
          rw [List.cons_append, ih]

theorem fenceWrap_data' (body : String) :
    (fenceWrap body).data =
      "```json".data ++ '\n' :: (body.data ++ '\n' :: "```".data) := by
  unfold fenceWrap
  rw [String.data_append, String.data_append]
  simp

theorem collectFenced_cons_fence (l : List Char) (ls : List (List Char)) (b : Bool)
    (hl : (("```".data).isPrefixOf (trimChars l)) = true) :
    collectFenced (l :: ls) b = collectFenced ls (!b) := by
  simp [collectFenced, hl]

theorem collectFenced_body (bls : List (List Char))
    (h : ∀ l ∈ bls, (("```".data).isPrefixOf (trimChars l)) = false) :
    collectFenced (bls ++ [("```".data)]) true = bls := by
  induction bls with
  | nil =>
    rw [List.nil_append, collectFenced_cons_fence _ _ _ (by decide)]
    rfl
  | cons l rest ih =>
    rw [List.cons_append]
    have hl := h l (List.mem_cons_self l rest)
    simp only [collectFenced, hl, Bool.false_eq_true, if_false, if_true]
    rw [ih (fun x hx => h x (List.mem_cons_of_mem l hx))]

theorem splitLines_joinLines_append (bls : List (List Char)) (ys : List Char)
    (hb : ∀ l ∈ bls, '\n' ∉ l) (hys : '\n' ∉ ys) (hne : bls ≠ []) :
    splitLines (joinLines bls ++ '\n' :: ys) = bls ++ [ys] := by
  induction bls with
  | nil => exact absurd rfl hne
  | cons l rest ih =>
    cases rest with
    | nil =>
      rw [show joinLines [l] = l from rfl]
      rw [splitLines_append_newline l ys (hb l (List.mem_cons_self l []))]
      rw [splitLines_no_newline ys hys]
      rfl
    | cons l2 rest2 =>
      rw [show joinLines (l :: l2 :: rest2) = l ++ '\n' :: joinLines (l2 :: rest2)
        from rfl]
      rw [List.append_assoc, List.cons_append]
      rw [splitLines_append_newline l _ (hb l (List.mem_cons_self l (l2 :: rest2)))]
      rw [ih (fun x hx => hb x (List.mem_cons_of_mem l hx)) (by simp)]
      rfl

theorem tryFences_fenceWrap (body : String) (hv : jsonValid body = true)
    (hlines : ∀ l ∈ splitLines body.data,
      (("```".data).isPrefixOf (trimChars l)) = false) :
    tryFences (fenceWrap body).data = some body.data := by
  have hsplit : splitLines (fenceWrap body).data
      = "```json".data :: (splitLines body.data ++ ["```".data]) := by
    rw [fenceWrap_data']
    rw [splitLines_append_newline _ _ (by decide)]
    congr 1
    conv_lhs =>
      rw [show body.data = joinLines (splitLines body.data)
        from (joinLines_splitLines body.data).symm]
    rw [splitLines_joinLines_append (splitLines body.data) _
      (splitLines_mem_no_newline body.data) (by decide) (splitLines_ne_nil body.data)]
  have hguard : (listContainsSub ("```json".data) (fenceWrap body).data
      || listContainsSub ("```".data) (fenceWrap body).data) = true := by
    rw [Bool.or_eq_true]
    left
    apply listContainsSub_of_isPre
    rw [fenceWrap_data]
    rfl
  have hnonempty : (splitLines body.data).isEmpty = false := by
    cases hq : splitLines body.data with
    | nil => exact absurd hq (splitLines_ne_nil body.data)
    | cons a b => rfl
  unfold tryFences
  rw [hguard, if_pos rfl, hsplit, collectFenced_cons_fence _ _ _ (by decide)]
  simp only [Bool.not_false]
  rw [collectFenced_body (splitLines body.data) hlines, hnonempty]
  simp only [Bool.false_eq_true, if_false]
  rw [joinLines_splitLines]
  unfold jsonValid at hv
  rw [hv, if_pos rfl]

theorem braceScanGo_no_brace (full : List Char) (rem : List Char) :
    ∀ (i : Nat) (count : Int), '{' ∉ rem →
      braceScanGo full rem i count none = none := by
  induction rem with
  | nil => intro i count _; rfl
  | cons c t ih =>
    intro i count hnb
    have hco : ¬(c = '{') := fun he => hnb (he ▸ List.mem_cons_self c t)
    have hnt : '{' ∉ t := fun hm => hnb (List.mem_cons_of_mem c hm)
    by_cases hcc : c = '}'
    · simp only [braceScanGo, if_neg hco, if_pos hcc]
      split
      · exact ih (i + 1) (count - 1) hnt
      · exact ih (i + 1) (count - 1) hnt
    · simp only [braceScanGo, if_neg hco, if_neg hcc]
      exact ih (i + 1) count hnt

theorem braceScan_no_brace (cs : List Char) (h : '{' ∉ cs) :
    braceScan cs = none := braceScanGo_no_brace cs cs 0 0 h

theorem findIdx?_brace_none_aux (cs : List Char) :
    ∀ i, '{' ∉ cs → List.findIdx? (fun c => c = '{') cs i = none := by
  induction cs with
  | nil => intro i _; rfl
  | cons c t ih =>
    intro i h
    have hco : ¬(c = '{') := fun he => h (he ▸ List.mem_cons_self c t)
    simp only [List.findIdx?, decide_eq_false hco, Bool.false_eq_true, if_false]
    exact ih (i + 1) (fun hm => h (List.mem_cons_of_mem c hm))

theorem findIdx?_brace_none (cs : List Char) (h : '{' ∉ cs) :
    cs.findIdx? (fun c => c = '{') = none :=
  findIdx?_brace_none_aux cs 0 h

theorem tryRegex_no_brace (cs : List Char) (h : '{' ∉ cs) : tryRegex cs = none := by
  unfold tryRegex
  rw [findIdx?_brace_none cs h]

theorem extractJson_fails (s : String) (hb : '{' ∉ s.data)
    (hf : listContainsSub ("```".data) s.data = false) (hv : jsonValid s = false) :
    extractJson s = "" := by
  have hf2 : listContainsSub ("```json".data) s.data = false := by
    cases hq : listContainsSub ("```json".data) s.data with
    | false => rfl
    | true =>
      exact absurd (listContainsSub_mono ("```json".data) ("```".data) s.data
        (by rfl) hq) (by simp [hf])
  unfold extractJson
  rw [hv]
  simp only [Bool.false_eq_true, if_false]
  unfold tryFences
  rw [hf, hf2]
  simp only [Bool.or_self, Bool.false_eq_true, if_false]
  rw [braceScan_no_brace s.data hb, tryRegex_no_brace s.data hb]

/-! ### C7: extraction round-trip (corrected) -/

/-- Counterexample to C7 as frozen: the input `"```\n42\n```"` contains no
brace character and is not itself valid JSON, yet extraction does not fail
— strategy 2 unwraps the fences and returns `"42"` — so `create_plan` does
not raise an `ExtractionError` for it. -/
theorem claimC7Counterexample :
    ('{' ∉ ("```\n42\n```" : String).data)
    ∧ jsonValid "```\n42\n```" = false
    ∧ extractJson "```\n42\n```" = "42"
    ∧ ("42" : String) ≠ "" := by
  refine ⟨by decide, rfl, rfl, by decide⟩

/-- Claim C7 (amended): an input accepted by `json.loads` is returned
unchanged; a valid JSON body wrapped in markdown code fences (no interior
line itself starting with a fence marker) is returned as the unwrapped
interior unchanged; and an input with no brace character, **no fence
marker**, and not itself valid JSON fails every strategy, so `_extract_json`
returns the empty sentinel and `create_plan` raises the extraction
`ValueError` — shown at the spec's prose reply, with the raw reply carried
in the error and the planner state untouched. -/
theorem claimC7 :
    (∀ s : String, jsonValid s = true → extractJson s = s)
  ∧ (∀ body : String, jsonValid body = true →
      (∀ l ∈ splitLines body.data, (("```".data).isPrefixOf (trimChars l)) = false) →
      extractJson (fenceWrap body) = body)
  ∧ (∀ s : String, '{' ∉ s.data → listContainsSub ("```".data) s.data = false →
      jsonValid s = false → extractJson s = "")
  ∧ (∀ (p : Planner) (db : List DbRow) (goal pid : String) (t : Nat),
      createPlan p db goal proseReply pid t =
        (Except.error (CreatePlanError.extractionError proseReply), p, db)) := by
  refine ⟨?_, ?_, ?_, ?_⟩
  · intro s hv
    unfold extractJson
    rw [hv, if_pos rfl]
  · intro body hv hlines
    unfold extractJson
    rw [jsonValid_fenceWrap body]
    simp only [Bool.false_eq_true, if_false]
    rw [tryFences_fenceWrap body hv hlines]
  · intro s hb hf hv
    exact extractJson_fails s hb hf hv
  · intro p db goal pid t
    rfl

/-- Witness for C7 at concrete inputs of all three amended clauses. -/
theorem claimC7Witness :
    extractJson "\x7b\"complexity\": \"atomic\", \"steps\": []\x7d"
        = "\x7b\"complexity\": \"atomic\", \"steps\": []\x7d"
    ∧ extractJson (fenceWrap "\x7b\"a\": 1\x7d") = "\x7b\"a\": 1\x7d"
    ∧ extractJson "Sure! Here's your plan for you." = "" := by
  refine ⟨?_, ?_, ?_⟩
  · exact claimC7.1 _ rfl
  · exact claimC7.2.1 "\x7b\"a\": 1\x7d" rfl (by decide)
  · exact claimC7.2.2.1 "Sure! Here's your plan for you." (by decide) (by decide) rfl

/-! ### Termination measure lemmas for C4 -/

theorem stepTerminal_updateStep (tools : List ToolCapability)
    (completed : List String) (s : PlanStep) :
    stepTerminal (updateStep tools completed s) = stepTerminal s := by
  rcases updateStep_status_cases tools completed s with h | ⟨hp, h | h⟩
  · unfold stepTerminal
    rw [h]
  · unfold stepTerminal
    rw [h, hp]
    rfl
  · unfold stepTerminal
    rw [h, hp]
    rfl

theorem countP_nonTerm_map (tools : List ToolCapability) (completed : List String)
    (steps : List PlanStep) :
    (steps.map (updateStep tools completed)).countP (fun s => !stepTerminal s)
      = steps.countP (fun s => !stepTerminal s) := by
  induction steps with
  | nil => rfl
  | cons s ss ih =>
    rw [List.map_cons, List.countP_cons, List.countP_cons, ih,
      stepTerminal_updateStep]

theorem nonTermCount_updateReady (tools : List ToolCapability) (plan : Plan) :
    nonTermCount (updateReadyStatus tools plan) = nonTermCount plan :=
  countP_nonTerm_map tools (completedIds plan.steps) plan.steps

theorem countP_setFirstStep (ss : List PlanStep) (sid : String) (st : PlanStep)
    (f : PlanStep → PlanStep)
    (hfind : ss.find? (fun s => s.id == sid) = some st)
    (hst : stepTerminal st = false) (hf : stepTerminal (f st) = true) :
    (setFirstStep ss sid f).countP (fun s => !stepTerminal s) + 1
      = ss.countP (fun s => !stepTerminal s) := by
  induction ss with
  | nil => simp [List.find?] at hfind
  | cons a rest ih =>
    cases ha : (a.id == sid) with
    | true =>
      have hsta : st = a := by
        have := List.find?_cons_of_pos (p := fun s => s.id == sid) rest ha
        rw [this] at hfind
        exact (Option.some_injective _ hfind).symm
      rw [setFirstStep_cons_pos a rest sid f ha, List.countP_cons, List.countP_cons,
        ← hsta, hf, hst]
      simp
    | false =>
      have hf' : rest.find? (fun s => s.id == sid) = some st := by
        have := List.find?_cons_of_neg (p := fun s => s.id == sid) (a := a) rest
          (by simp [ha])
        rw [this] at hfind
        exact hfind
      rw [setFirstStep_cons_neg a rest sid f ha, List.countP_cons, List.countP_cons]
      have := ih hf'
      cases hpa : (!stepTerminal a) <;> simp [hpa] <;> omega

theorem nonTerm_execStepPlan_lt (tools : List ToolCapability)
    (dispatch : PlanStep → Except String Value) (plan : Plan) (sid : String)
    (st : PlanStep) (hfind : plan.steps.find? (fun s => s.id == sid) = some st)
    (hready : st.status = StepStatus.ready) :
    nonTermCount (execStepPlan tools dispatch plan sid).2 + 1 = nonTermCount plan := by
  have hnr : (st.status != StepStatus.ready) = false := by simp [hready]
  have hst : stepTerminal st = false := by
    unfold stepTerminal
    rw [hready]
    rfl
  cases hdisp : dispatch st with
  | ok v =>
    simp only [execStepPlan, hfind, hnr, Bool.false_eq_true, if_false, hdisp]
    rw [nonTermCount_updateReady]
    exact countP_setFirstStep plan.steps sid st _ hfind hst (by rfl)
  | error e =>
    simp only [execStepPlan, hfind, hnr, Bool.false_eq_true, if_false, hdisp]
    exact countP_setFirstStep plan.steps sid st _ hfind hst (by rfl)

theorem nonTerm_execStepPlan_le (tools : List ToolCapability)
    (dispatch : PlanStep → Except String Value) (plan : Plan) (sid : String) :
    nonTermCount (execStepPlan tools dispatch plan sid).2 ≤ nonTermCount plan := by
  cases hfind : plan.steps.find? (fun s => s.id == sid) with
  | none =>
    simp only [execStepPlan, hfind]
    exact Nat.le_refl _
  | some st =>
    cases hnr : (st.status != StepStatus.ready) with
    | true =>
      simp only [execStepPlan, hfind, hnr, if_true]
      exact Nat.le_refl _
    | false =>
      have hready : st.status = StepStatus.ready := by simpa using hnr
      have := nonTerm_execStepPlan_lt tools dispatch plan sid st hfind hready
      omega

theorem setFirstStep_ids (ss : List PlanStep) (sid : String)
    (f : PlanStep → PlanStep) (hf : ∀ s, (f s).id = s.id) :
    (setFirstStep ss sid f).map (fun s => s.id) = ss.map (fun s => s.id) := by
  induction ss with
  | nil => rfl
  | cons a rest ih =>
    cases ha : (a.id == sid) with
    | true =>
      rw [setFirstStep_cons_pos a rest sid f ha, List.map_cons, List.map_cons, hf]
    | false =>
      rw [setFirstStep_cons_neg a rest sid f ha, List.map_cons, List.map_cons, ih]

theorem updateReady_ids (tools : List ToolCapability) (plan : Plan) :
    (updateReadyStatus tools plan).steps.map (fun s => s.id)
      = plan.steps.map (fun s => s.id) := by
  show (plan.steps.map (updateStep tools (completedIds plan.steps))).map
    (fun s => s.id) = plan.steps.map (fun s => s.id)
  rw [List.map_map]
  have : ((fun s => s.id) ∘ updateStep tools (completedIds plan.steps))
      = fun (s : PlanStep) => s.id :=
    funext (fun s => updateStep_id tools (completedIds plan.steps) s)
  rw [this]

theorem execStepPlan_ids (tools : List ToolCapability)
    (dispatch : PlanStep → Except String Value) (plan : Plan) (sid : String) :
    (execStepPlan tools dispatch plan sid).2.steps.map (fun s => s.id)
      = plan.steps.map (fun s => s.id) := by
  cases hfind : plan.steps.find? (fun s => s.id == sid) with
  | none =>
    simp only [execStepPlan, hfind]
  | some st =>
    cases hnr : (st.status != StepStatus.ready) with
    | true =>
      simp only [execStepPlan, hfind, hnr, if_true]
    | false =>
      cases hdisp : dispatch st with
      | ok v =>
        simp only [execStepPlan, hfind, hnr, Bool.false_eq_true, if_false, hdisp]
        rw [updateReady_ids]
        exact setFirstStep_ids plan.steps sid _ (fun s => rfl)
      | error e =>
        simp only [execStepPlan, hfind, hnr, Bool.false_eq_true, if_false, hdisp]
        exact setFirstStep_ids plan.steps sid _ (fun s => rfl)

theorem find?_of_mem_nodup (ss : List PlanStep) (s : PlanStep)
    (hnd : (ss.map (fun x => x.id)).Nodup) (hs : s ∈ ss) :
    ss.find? (fun x => x.id == s.id) = some s := by
  induction ss with
  | nil => cases hs
  | cons a rest ih =>
    rcases List.mem_cons.mp hs with rfl | hmem
    · exact List.find?_cons_of_pos _ (by simp)
    · have h1 : a.id ∉ rest.map (fun x => x.id) := (List.nodup_cons.mp hnd).1
      have h2 : s.id ∈ rest.map (fun x => x.id) := List.mem_map_of_mem _ hmem
      have hne : ¬((a.id == s.id) = true) := by
        intro hq
        exact h1 ((beq_iff_eq.mp hq) ▸ h2)
      rw [List.find?_cons_of_neg (p := fun x => x.id == s.id) (a := a) rest hne]
      exact ih (List.nodup_cons.mp hnd).2 hmem

/-! ### Planner-level wave lemmas for C4 -/

theorem executeStep_planner_spec (ora : Oracle) (p : Planner) (pid sid : String)
    (plan : Plan) (hlk : lookupPlan p.plans pid = some plan) :
    lookupPlan ((executeStep ora p pid sid).2).plans pid
        = some (execStepPlan p.tools (dispatchStep ora plan) plan sid).2
    ∧ nonTermCount (execStepPlan p.tools (dispatchStep ora plan) plan sid).2
        ≤ nonTermCount plan
    ∧ (execStepPlan p.tools (dispatchStep ora plan) plan sid).2.steps.map
        (fun s => s.id) = plan.steps.map (fun s => s.id) := by
  refine ⟨?_, nonTerm_execStepPlan_le _ _ _ _, execStepPlan_ids _ _ _ _⟩
  show lookupPlan ((executeStep ora p pid sid).2).plans pid = _
  unfold executeStep
  rw [hlk]
  exact lookupPlan_setPlan_found p.plans pid plan _ hlk

theorem runWave_spec (ora : Oracle) (pid : String) :
    ∀ (wave : List PlanStep) (p : Planner) (acc : List (String × Option Value))
      (plan : Plan), lookupPlan p.plans pid = some plan →
      ∃ plan2, lookupPlan ((runWave ora p pid wave acc).2).plans pid = some plan2
        ∧ nonTermCount plan2 ≤ nonTermCount plan
        ∧ plan2.steps.map (fun s => s.id) = plan.steps.map (fun s => s.id) := by
  intro wave
  induction wave with
  | nil =>
    intro p acc plan hlk
    exact ⟨plan, hlk, Nat.le_refl _, rfl⟩
  | cons s rest ih =>
    intro p acc plan hlk
    obtain ⟨h1, hle1, hid1⟩ := executeStep_planner_spec ora p pid s.id plan hlk
    obtain ⟨plan2, h2, hle2, hid2⟩ := ih (executeStep ora p pid s.id).2
      (acc ++ [(s.description, (executeStep ora p pid s.id).1)]) _ h1
    exact ⟨plan2, h2, Nat.le_trans hle2 hle1, hid2.trans hid1⟩

theorem executeStep_planner_lt (ora : Oracle) (p : Planner) (pid : String)
    (plan : Plan) (s0 : PlanStep) (hlk : lookupPlan p.plans pid = some plan)
    (hnd : (plan.steps.map (fun s => s.id)).Nodup)
    (hs0 : s0 ∈ plan.steps) (hready : s0.status = StepStatus.ready) :
    lookupPlan ((executeStep ora p pid s0.id).2).plans pid
        = some (execStepPlan p.tools (dispatchStep ora plan) plan s0.id).2
    ∧ nonTermCount (execStepPlan p.tools (dispatchStep ora plan) plan s0.id).2 + 1
        = nonTermCount plan := by
  have hfind := find?_of_mem_nodup plan.steps s0 hnd hs0
  constructor
  · show lookupPlan ((executeStep ora p pid s0.id).2).plans pid = _
    unfold executeStep
    rw [hlk]
    exact lookupPlan_setPlan_found p.plans pid plan _ hlk
  · exact nonTerm_execStepPlan_lt p.tools _ plan s0.id s0 hfind hready

theorem fullPlanLoop_total (ora : Oracle) (pid : String) :
    ∀ (fuel : Nat) (p : Planner) (acc : List (String × Option Value)),
      planIdsNodup p pid → planMeasure p pid < fuel →
      (fullPlanLoop ora fuel p pid acc).isSome = true := by
  intro fuel
  induction fuel with
  | zero =>
    intro p acc _ h
    exact absurd h (Nat.not_lt_zero _)
  | succ n ih =>
    intro p acc hnd hlt
    cases hlk : lookupPlan p.plans pid with
    | none =>
      simp [fullPlanLoop, getNextSteps, hlk]
    | some plan =>
      have hnd' : (plan.steps.map (fun s => s.id)).Nodup := by
        unfold planIdsNodup at hnd
        rw [hlk] at hnd
        exact hnd
      have hgns : getNextSteps p pid
          = ((updateReadyStatus p.tools plan).steps.filter
              (fun s => s.status == StepStatus.ready),
             { p with plans := setPlan p.plans pid (updateReadyStatus p.tools plan) }) := by
        simp [getNextSteps, hlk]
      cases hw : (updateReadyStatus p.tools plan).steps.filter
          (fun s => s.status == StepStatus.ready) with
      | nil =>
        simp [fullPlanLoop, hgns, hw]
      | cons s0 rest =>
        have hlk1 : lookupPlan
            (setPlan p.plans pid (updateReadyStatus p.tools plan)) pid
            = some (updateReadyStatus p.tools plan) :=
          lookupPlan_setPlan_found p.plans pid plan _ hlk
        have hid' : (updateReadyStatus p.tools plan).steps.map (fun s => s.id)
            = plan.steps.map (fun s => s.id) := updateReady_ids p.tools plan
        have hnd1 : ((updateReadyStatus p.tools plan).steps.map
            (fun s => s.id)).Nodup := by
          rw [hid']
          exact hnd'
        have hs0 : s0 ∈ (updateReadyStatus p.tools plan).steps
            ∧ (s0.status == StepStatus.ready) = true :=
          List.mem_filter.mp (hw ▸ List.mem_cons_self s0 rest)
        have hs0r : s0.status = StepStatus.ready := beq_iff_eq.mp hs0.2
        set p1 : Planner :=
          { p with plans := setPlan p.plans pid (updateReadyStatus p.tools plan) }
          with hp1
        obtain ⟨hlk2, hm2⟩ := executeStep_planner_lt ora p1 pid
          (updateReadyStatus p.tools plan) s0 hlk1 hnd1 hs0.1 hs0r
        obtain ⟨plan3, hlk3, hm3, hid3⟩ := runWave_spec ora pid rest
          (executeStep ora p1 pid s0.id).2
          (acc ++ [(s0.description, (executeStep ora p1 pid s0.id).1)]) _ hlk2
        have hid2 : (execStepPlan p1.tools (dispatchStep ora
              (updateReadyStatus p.tools plan)) (updateReadyStatus p.tools plan)
              s0.id).2.steps.map (fun s => s.id)
            = (updateReadyStatus p.tools plan).steps.map (fun s => s.id) :=
          execStepPlan_ids _ _ _ _
        have hmp' : nonTermCount (updateReadyStatus p.tools plan)
            = nonTermCount plan := nonTermCount_updateReady p.tools plan
        have hfuel : nonTermCount plan ≤ n := by
          unfold planMeasure at hlt
          simp only [hlk] at hlt
          omega
        simp only [fullPlanLoop, hgns, hw, List.isEmpty_cons, Bool.false_eq_true,
          if_false, runWave]
        apply ih
        · unfold planIdsNodup
          simp only [hlk3]
          rw [hid3, hid2, hid']
          exact hnd'
        · unfold planMeasure
          simp only [hlk3]
          omega

/-! ### C4: the wave loop terminates (corrected: distinct step ids required) -/

/-- Counterexample to C4 as frozen: on a plan with two steps sharing the id
`x` (constructible by `create_plan` from a backend reply that repeats an
id), the READY twin is shadowed in `execute_step`'s first-match lookup by
its never-READY namesake, so a wave executes nothing and the loop state
repeats forever: the model's fuel runs out, the post-readiness state is a
fixed point of the iteration (`getNextSteps` returns it unchanged with a
non-empty wave, and running that wave returns it unchanged again), which is
exactly an infinite `while` loop in the Python code. -/
theorem claimC4Counterexample :
    (executeFullPlan oraOk dupPlanner "plan_dup").1 = FullOutcome.fuelExhausted
    ∧ (getNextSteps dupPlannerFixed "plan_dup").1 ≠ []
    ∧ (getNextSteps dupPlannerFixed "plan_dup").2 = dupPlannerFixed
    ∧ (runWave oraOk dupPlannerFixed "plan_dup"
        (getNextSteps dupPlannerFixed "plan_dup").1 []).2 = dupPlannerFixed := by
  refine ⟨rfl, ?_, rfl, rfl⟩
  exact List.cons_ne_nil _ _

/-- Claim C4 (amended): `execute_full_plan` terminates on every plan whose
steps have pairwise-distinct ids — each wave executes its READY steps into
a terminal state, strictly decreasing the non-terminal count, so the fuel
chosen in the model is never exhausted; and on the cyclic two-step plan
(A depends on B, B depends on A) it returns with no step ever executed or
completed: the results list is empty and both steps remain PENDING
(non-terminal) in the returned result. -/
theorem claimC4 :
    (∀ (ora : Oracle) (p : Planner) (pid : String) (plan : Plan),
      lookupPlan p.plans pid = some plan →
      (plan.steps.map (fun s => s.id)).Nodup →
      FullOutcome.isFuelExhausted (executeFullPlan ora p pid).1 = false)
  ∧ FullOutcome.resultsOf (executeFullPlan oraOk cyclePlanner "plan_cyc").1 = some []
  ∧ FullOutcome.finalStatuses (executeFullPlan oraOk cyclePlanner "plan_cyc").1
      = some [StepStatus.pending, StepStatus.pending] := by
  refine ⟨?_, rfl, rfl⟩
  intro ora p pid plan hlk hnd
  have htot := fullPlanLoop_total ora pid (plan.steps.length + 1) p []
    (by unfold planIdsNodup; simp only [hlk]; exact hnd)
    (by
      unfold planMeasure
      simp only [hlk]
      exact Nat.lt_succ_of_le (List.countP_le_length _))
  unfold executeFullPlan
  rw [hlk]
  cases hloop : fullPlanLoop ora (plan.steps.length + 1) p pid [] with
  | none =>
    rw [hloop] at htot
    cases htot
  | some res =>
    simp [hloop, FullOutcome.isFuelExhausted]

/-- Witness for C4 at the cyclic plan (distinct ids `A`, `B`). -/
theorem claimC4Witness :
    FullOutcome.isFuelExhausted (executeFullPlan oraOk cyclePlanner "plan_cyc").1
      = false :=
  claimC4.1 oraOk cyclePlanner "plan_cyc" cyclePlan rfl (by decide)
